import Mathlib

/-!
Verification of the `colour` repository's Sony .spi1d LUT codec
(`colour/io/luts/sony_spi1d.py`) and the RIMM / ROMM / ERIMM transfer
functions (`colour/models/rgb/transfer_functions/rimm_romm_rgb.py`).

The LUT codec is embedded at the text level: a file is a list of lines,
numbers are exact rationals, and Python's `str.strip` / `str.split` /
`str.startswith("#")` are mirrored by executable functions on `List Char`.
Fixed-point number formatting (`"{:0.Nf}".format`) is modelled by rounding
`q * 10^N` to the nearest integer; Python rounds the underlying binary
float with ties to even, which differs from this model only on exact
decimal ties, and no property below depends on a tie.

The transfer functions are embedded over `ℝ`, with `numpy` float
operations read as exact real arithmetic, `spow` as sign-preserving
`Real.rpow`, and `np.round` as round-half-to-even on `ℝ`.
-/

namespace Colour

/-! ## Character and token utilities (Python `str.strip` / `str.split`) -/

/-- Whitespace test used by Python's `str.strip()` / `str.split()`. -/
def isSpace (c : Char) : Bool := c.isWhitespace

/-- `str.strip()` on a character list: drop whitespace from both ends. -/
def stripChars (l : List Char) : List Char :=
  ((l.dropWhile isSpace).reverse.dropWhile isSpace).reverse

/-- `str.strip()` on a string. -/
def pyStrip (s : String) : String := String.mk (stripChars s.data)

/-- `str.split()` with no separator: split on runs of whitespace,
dropping empty tokens.  `acc` holds the (reversed) current token. -/
def tokensAux : List Char → List Char → List (List Char)
  | [], acc => if acc.isEmpty then [] else [acc.reverse]
  | c :: rest, acc =>
    if isSpace c then
      if acc.isEmpty then tokensAux rest [] else acc.reverse :: tokensAux rest []
    else tokensAux rest (c :: acc)

/-- Tokens of a line, as character lists. -/
def tokensOf (l : List Char) : List (List Char) := tokensAux l []

/-! ## Decimal digit strings -/

/-- The decimal digit character for `n` (defined for `n < 10`). -/
def digitCharOf (n : ℕ) : Char := Char.ofNat (48 + n % 10)

/-- Decimal digits of `n`, least significant first; empty for `0`. -/
def natDigitsRev (n : ℕ) : List ℕ :=
  if h : n = 0 then [] else n % 10 :: natDigitsRev (n / 10)
termination_by n
decreasing_by exact Nat.div_lt_self (Nat.pos_of_ne_zero h) (by norm_num)

/-- Decimal representation of a natural number, mirroring Python `str(n)`. -/
def natToDec (n : ℕ) : List Char :=
  if n = 0 then ['0'] else ((natDigitsRev n).map digitCharOf).reverse

/-- Numeric value of a digit character. -/
def digitVal (c : Char) : ℕ := c.toNat - 48

/-- Value of a decimal digit string (most significant first). -/
def digitsVal (l : List Char) : ℕ := l.foldl (fun a c => 10 * a + digitVal c) 0

/-- Value of a least-significant-first digit list. -/
def natOfDigitsRev (l : List ℕ) : ℕ := l.foldr (fun d a => d + 10 * a) 0

/-- No character of `l` is whitespace. -/
abbrev noWS (l : List Char) : Prop := ∀ c ∈ l, isSpace c = false

/-! ## Fixed-point formatting, mirroring `"{:0.{d}f}".format(x)` -/

/-- The integer `x` is rounded to at fixed precision `d`:
`round(q * 10^d)` to the nearest integer (ties upward in this model; see
the module comment). -/
def rndScaled (d : ℕ) (q : ℚ) : ℤ := ⌊q * 10 ^ d + 1 / 2⌋

/-- The rational value actually denoted by the formatted text. -/
def rndAt (d : ℕ) (q : ℚ) : ℚ := (rndScaled d q : ℚ) / 10 ^ d

/-- Left-pad a digit string with zeros to width `d`. -/
def padZeros (d : ℕ) (l : List Char) : List Char :=
  List.replicate (d - l.length) '0' ++ l

/-- Digits of the non-negative fixed-point number `m / 10^d`
(`d` fractional digits; no decimal point when `d = 0`, as in Python). -/
def fixedBody (d : ℕ) (m : ℕ) : List Char :=
  if d = 0 then natToDec m
  else natToDec (m / 10 ^ d) ++ '.' :: padZeros d (natToDec (m % 10 ^ d))

/-- `"{:0.{d}f}".format(q)` as a character list. -/
def fmtFixedChars (d : ℕ) (q : ℚ) : List Char :=
  let n : ℤ := rndScaled d q
  if n < 0 then '-' :: fixedBody d n.natAbs else fixedBody d n.natAbs

/-- `"{:0.{d}f}".format(q)` as a string. -/
def fmtFixed (d : ℕ) (q : ℚ) : String := String.mk (fmtFixedChars d q)

/-! ## Decimal parsing, modelling `float(token)` on the decimal forms the
codec emits and the claims exercise (optional sign, integer digits,
optional fraction). -/

/-- Digit test, as Python's float parser accepts. -/
def isDigitChar (c : Char) : Bool := c.isDigit

/-- Parse an unsigned decimal: `digits`, `digits.digits`, `digits.` or
`.digits`, requiring at least one digit in total and no trailing text. -/
def parseUnsigned (l : List Char) : Option ℚ :=
  let ip := l.takeWhile isDigitChar
  let rest := l.dropWhile isDigitChar
  if rest.isEmpty then
    if ip.isEmpty then none else some (digitsVal ip : ℚ)
  else
    let fp := rest.tail.takeWhile isDigitChar
    if rest.headD ' ' = '.' ∧ (rest.tail.dropWhile isDigitChar).isEmpty = true
        ∧ ¬(ip.isEmpty = true ∧ fp.isEmpty = true) then
      some ((digitsVal ip : ℚ) + (digitsVal fp : ℚ) / 10 ^ fp.length)
    else none

/-- Parse a signed decimal character list. -/
def parseRatChars (l : List Char) : Option ℚ :=
  if l.headD ' ' = '-' then (parseUnsigned l.tail).map (fun q => -q)
  else if l.headD ' ' = '+' then parseUnsigned l.tail
  else parseUnsigned l

/-- Parse a signed decimal string (the model of `float(token)`). -/
def parseRatS (s : String) : Option ℚ := parseRatChars s.data

/-! ## LUT value objects

Modelled from the spec: the classes `LUT1D`, `LUT3x1D` and `LUTSequence`
of `colour.io.luts` are imported by `sony_spi1d.py` but their sources are
not part of the provided files, so they are modelled from spec section 3:
tables of rational samples, a domain, a title and an order-preserving
comment list, with construction-time validation of the stated invariants.
-/

/-- Modelled from the spec: a single-channel lookup curve (spec section 3,
LUT1D). -/
structure LUT1D where
  table : List ℚ
  name : String
  domain : List ℚ
  comments : List String
deriving DecidableEq

/-- Modelled from the spec: three independent single-channel curves
sharing one table (spec section 3, LUT3x1D); `table` rows and `domain`
rows are 3-wide. -/
structure LUT3x1D where
  table : List (List ℚ)
  name : String
  domain : List (List ℚ)
  comments : List String
deriving DecidableEq

/-- Modelled from the spec: LUT1D invariant — at least 2 samples and
`domain[0] < domain[1]` (spec section 3). -/
def LUT1D.validB (L : LUT1D) : Bool :=
  2 ≤ L.table.length && decide (L.domain.getD 0 0 < L.domain.getD 1 0)

/-- Modelled from the spec: LUT3x1D invariant — at least 2 rows, each row
exactly 3 values (spec section 3). -/
def LUT3x1D.validB (L : LUT3x1D) : Bool :=
  2 ≤ L.table.length && L.table.all (fun r => r.length = 3)

/-- Modelled from the spec: construction validates the invariants and
fails with a validation error otherwise (spec section 4.2). -/
def mkLUT1D (table : List ℚ) (name : String) (domain : List ℚ)
    (comments : List String) : Except String LUT1D :=
  let L : LUT1D := ⟨table, name, domain, comments⟩
  if L.validB then .ok L else .error "ValidationError"

/-- Modelled from the spec: LUT3x1D constructor with validation. -/
def mkLUT3x1D (table : List (List ℚ)) (name : String)
    (domain : List (List ℚ)) (comments : List String) :
    Except String LUT3x1D :=
  let L : LUT3x1D := ⟨table, name, domain, comments⟩
  if L.validB then .ok L else .error "ValidationError"

/-- Modelled from the spec: implicit vs explicit domain for LUT1D —
implicit is the 2-element interval form (spec section 3). -/
def LUT1D.isDomainExplicit (L : LUT1D) : Bool := L.domain.length ≠ 2

/-- Modelled from the spec: implicit vs explicit domain for LUT3x1D —
implicit is the 2-row (2x3) form (spec section 3). -/
def LUT3x1D.isDomainExplicit (L : LUT3x1D) : Bool := L.domain.length ≠ 2

/-- Modelled from the spec: a LUT object of some other type (the write
path must reject anything that is neither a 1D nor a 3x1D LUT). It
carries only what the writer consults before the type check: whether its
domain is explicit. -/
structure OtherLUT where
  domainExplicit : Bool
deriving DecidableEq

/-- A LUT value object as the writer receives it. -/
inductive LUTNode
  | oneD (L : LUT1D)
  | threeD (L : LUT3x1D)
  | other (o : OtherLUT)
deriving DecidableEq

/-- `is_domain_explicit` dispatched over the writer's argument. -/
def LUTNode.isDomainExplicit : LUTNode → Bool
  | .oneD L => L.isDomainExplicit
  | .threeD L => L.isDomainExplicit
  | .other o => o.domainExplicit

/-- `isinstance(x, LUT1D)`. -/
def LUTNode.is1D : LUTNode → Bool
  | .oneD _ => true
  | _ => false

/-- `isinstance(x, LUT3x1D)`. -/
def LUTNode.is3D : LUTNode → Bool
  | .threeD _ => true
  | _ => false

/-- Modelled from the spec: a `LUTSequence` is an ordered composition of
LUT value objects of which the writer consults only the first element
(spec section 3), so it is carried as a head plus a tail. The writer's
argument is either a single LUT or such a sequence. -/
inductive WriteLUTArg
  | single (n : LUTNode)
  | sequence (first : LUTNode) (rest : List LUTNode)
deriving DecidableEq

/-- The `LUT` actually written: a sequence is replaced by its first
element (with a usage warning in the source, not modelled). -/
def WriteLUTArg.effective : WriteLUTArg → LUTNode
  | .single n => n
  | .sequence f _ => f

/-- Construction-time validity of a LUT node (spec section 3 invariants;
an `OtherLUT` carries no table here, so it is unconstrained). -/
def LUTNode.validB : LUTNode → Bool
  | .oneD L => L.validB
  | .threeD L => L.validB
  | .other _ => true

/-- Validity of the writer's argument: every contained LUT satisfies its
construction invariant. -/
def WriteLUTArg.validB : WriteLUTArg → Bool
  | .single n => n.validB
  | .sequence f rest => f.validB && rest.all LUTNode.validB

/-- Modelled from the spec: `attest` fails fast with a labeled condition
(spec section 2, assertion helper; `colour.utilities.attest`). -/
def attest (cond : Prop) [Decidable cond] (msg : String) :
    Except String Unit :=
  if cond then .ok () else .error msg

/-! ## The reader, from `read_LUT_SonySPI1D` (sony_spi1d.py lines 96-153).

A file is a list of lines (strings without their trailing newline, as
`readlines` + `strip` produces).  The reader is embedded on `List Char`
so that the text-level reasoning is by structural induction.
-/

/-- The result of a read: a LUT1D or a LUT3x1D. -/
abbrev ReadLUT := Sum LUT1D LUT3x1D

deriving instance DecidableEq for Except

/-- Parser state: the mutable locals of `read_LUT_SonySPI1D`
(`domain_min`, `domain_max`, `dimensions`, `data`, `comments`), with
their initial values. -/
structure RState where
  domainMin : ℚ := 0
  domainMax : ℚ := 1
  dimensions : ℕ := 1
  data : List (List (List Char)) := []
  comments : List (List Char) := []
deriving DecidableEq

/-- Modelled from the spec: `as_int_scalar` (from `colour.utilities`, not
in the provided sources) converts the token to an integer scalar; per
spec section 6 a `Components` value must be an integer-valued number, any
other token fails. -/
def asIntScalarChars (t : List Char) : Except String ℤ :=
  match parseRatChars t with
  | some q => if q.den = 1 then .ok q.num else .error "ValueError: not an integer"
  | none => .error "ValueError: could not convert string to float"

/-- One iteration of the reader's line loop (sony_spi1d.py lines
105-128): comment lines are collected, `Version`/`Length` and the braces
are skipped, `From` sets the domain, `Components` is validated to 1 or 3,
anything else is a data row kept as its token list. -/
def stepL (st : RState) (line : List Char) : Except String RState :=
  if line.headD ' ' = '#' then
    .ok { st with comments := st.comments ++ [stripChars line.tail] }
  else
    let tokens := tokensOf line
    if tokens.isEmpty then .error "IndexError: list index out of range"
    else
      let t0 := tokens.headD []
      let rest := tokens.tail
      if t0 = ("Version").data then .ok st
      else if t0 = ("From").data then
        match rest.mapM parseRatChars with
        | none => .error "ValueError: could not convert string to float"
        | some vs =>
          if vs.length = 2 then
            .ok { st with domainMin := vs.headD 0,
                          domainMax := vs.tail.headD 0 }
          else .error "ValueError: unpacking"
      else if t0 = ("Length").data then .ok st
      else if t0 = ("Components").data then
        if rest.isEmpty then .error "IndexError: list index out of range"
        else
          match asIntScalarChars (rest.headD []) with
          | .error e => .error e
          | .ok n =>
            if n = 1 ∨ n = 3 then
              .ok { st with dimensions := if n = 1 then 1 else 2 }
            else .error "Only 1 or 3 components are supported!"
      else if t0 = ['\x7b'] ∨ t0 = ['\x7d'] then .ok st
      else .ok { st with data := st.data ++ [tokens] }

/-- `as_float_array(data)` on the collected rows: every token must parse
as a float and the rows must be rectangular. -/
def asFloatArrayRows (data : List (List (List Char))) :
    Except String (List (List ℚ)) :=
  let parsed := data.mapM (fun r => r.mapM parseRatChars)
  if parsed.isNone then .error "ValueError: could not convert string to float"
  else
    let rows := parsed.getD []
    if rows.tail.all (fun x => x.length = (rows.headD []).length) then
      .ok rows
    else .error "ValueError: ragged array"

/-- `np.squeeze(table)` followed by handing the result to `LUT1D`: a
(n, 1) table squeezes to its n scalars, a (1, k) table to its single
row; a genuinely 2-dimensional table cannot become a LUT1D table and
fails as a validation error. -/
def npSqueezeTo1D (rows : List (List ℚ)) : Except String (List ℚ) :=
  if rows.all (fun r => r.length = 1) then .ok (rows.map (fun r => r.headD 0))
  else if rows.length = 1 then .ok (rows.headD [])
  else .error "ValidationError: table is not 1-dimensional"

/-- End of `read_LUT_SonySPI1D` (sony_spi1d.py lines 130-153): parse the
rows, then build a LUT1D (squeezed table, `[min, max]` domain) or a
LUT3x1D (domain expanded to the uniform 2x3 matrix). -/
def buildLUT (title : String) (st : RState) : Except String ReadLUT := do
  let rows ← asFloatArrayRows st.data
  if st.dimensions = 1 then
    let t ← npSqueezeTo1D rows
    let L ← mkLUT1D t title [st.domainMin, st.domainMax]
      (st.comments.map String.mk)
    return .inl L
  else
    let L ← mkLUT3x1D rows title
      [[st.domainMin, st.domainMin, st.domainMin],
       [st.domainMax, st.domainMax, st.domainMax]]
      (st.comments.map String.mk)
    return .inr L

/-- The reader on character-list lines: strip every line, drop the empty
ones, run the line loop, then build the LUT. -/
def readL (title : String) (lines : List (List Char)) :
    Except String ReadLUT :=
  ((lines.map stripChars).filter (fun l => l ≠ [])).foldlM stepL {} >>=
    buildLUT title

/-- `read_LUT_SonySPI1D`: the file is given as its list of lines and the
title that `path_to_title` would derive from the path (`path_to_title`
is not part of the provided sources). -/
def read_LUT_SonySPI1D (title : String) (lines : List String) :
    Except String ReadLUT :=
  readL title (lines.map String.data)

/-! ## The writer, from `write_LUT_SonySPI1D` (sony_spi1d.py lines
156-263).  The produced file is returned as its list of lines; a raised
precondition (`attest`) is an `error`, and an `ok` result corresponds to
the function writing the file and returning `True`. -/

/-- `np.unique`: sorted distinct values. -/
def pyUnique (l : List ℚ) : List ℚ := (l.insertionSort (fun a b => a ≤ b)).dedup

/-- `_format_array` (sony_spi1d.py lines 233-236): format a 3x1D table
row, which must carry at least 3 values. -/
def fmtRow3 (decimals : ℕ) (r : List ℚ) : Except String (List Char) :=
  match r with
  | a :: b :: c :: _ =>
    .ok (' ' :: fmtFixedChars decimals a ++ ' ' :: fmtFixedChars decimals b ++
      ' ' :: fmtFixedChars decimals c)
  | _ => .error "IndexError: tuple index out of range"

/-- `write_LUT_SonySPI1D` on character-list lines. -/
def writeL (arg : WriteLUTArg) (decimals : ℕ) :
    Except String (List (List Char)) := do
  let LUTxD := arg.effective
  attest (LUTxD.isDomainExplicit = false) "LUT domain must be implicit!"
  attest (LUTxD.is1D = true ∨ LUTxD.is3D = true)
    "LUT must be either a 1D or 3x1D LUT!"
  let dom ← match LUTxD with
    | .oneD L => Except.ok L.domain
    | .threeD L => do
      let u := pyUnique L.domain.flatten
      attest (u.length = 2) "Non-uniform LUT domain is unsupported!"
      Except.ok u
    | .other _ => Except.error "unreachable: rejected by the type attest"
  let lengthVal := match LUTxD with
    | .oneD L => L.table.length
    | .threeD L => L.table.length
    | .other _ => 0
  let rows ← match LUTxD with
    | .oneD L =>
      Except.ok (L.table.map (fun v => ' ' :: fmtFixedChars decimals v))
    | .threeD L => L.table.mapM (fmtRow3 decimals)
    | .other _ => Except.error "unreachable: rejected by the type attest"
  let comments := match LUTxD with
    | .oneD L => L.comments
    | .threeD L => L.comments
    | .other _ => []
  return ["Version 1".data,
      "From ".data ++ fmtFixedChars decimals (dom.getD 0 0) ++
        ' ' :: fmtFixedChars decimals (dom.getD 1 0),
      "Length ".data ++ natToDec lengthVal,
      "Components ".data ++ (if LUTxD.is1D then ['1'] else ['3']),
      ['\x7b']] ++ rows ++ [['\x7d']] ++
    comments.map (fun c => '#' :: ' ' :: c.data)

/-- `write_LUT_SonySPI1D` producing the file's lines as strings. -/
def write_LUT_SonySPI1D (arg : WriteLUTArg) (decimals : ℕ := 7) :
    Except String (List String) :=
  (writeL arg decimals).map (List.map String.mk)

/-! ## RIMM / ROMM / ERIMM transfer functions
(`colour/models/rgb/transfer_functions/rimm_romm_rgb.py`)

Embedded over `ℝ`.  `to_domain_1` and `from_range_1` are the identity:
they are modelled from the spec — under the default "reference"
domain-range scale they do not rescale (spec section 6), and all claims
are about the default scale; the `domain_range_scale("ignore")` block in
`cctf_decoding_RIMMRGB` is likewise transparent.

`np.round` rounds half to even; `npRound` reproduces that on `ℝ`.
`np.select(conds, choices)` picks the choice of the FIRST true condition
and defaults to 0, which the nested `if` chains below mirror in the
source's exact condition order.
-/

/-- `np.round` on a real: nearest integer, ties to even. -/
noncomputable def npRound (x : ℝ) : ℤ :=
  let n : ℤ := ⌊x + 1 / 2⌋
  if x + 1 / 2 = (n : ℝ) ∧ Odd n then n - 1 else n

/-- `colour.algebra.spow`: sign-preserving power (modelled from the spec:
`spow(base, exponent)` applies the power to the magnitude and reapplies
the sign, spec section 6). -/
noncomputable def spow (b p : ℝ) : ℝ := Real.sign b * |b| ^ p

/-- `cctf_encoding_ROMMRGB` (rimm_romm_rgb.py lines 61-123). -/
noncomputable def cctf_encoding_ROMMRGB (X : ℝ) (bit_depth : ℕ := 8)
    (out_int : Bool := false) : ℝ :=
  let I_max : ℝ := 2 ^ bit_depth - 1
  let E_t : ℝ := (16 : ℝ) ^ ((1.8 : ℝ) / (1 - 1.8))
  let X_p : ℝ :=
    if X < E_t then X * 16 * I_max else spow X (1 / 1.8) * I_max
  if out_int then (npRound X_p : ℝ) else X_p / I_max

/-- `cctf_decoding_ROMMRGB` (rimm_romm_rgb.py lines 126-194). -/
noncomputable def cctf_decoding_ROMMRGB (X_p : ℝ) (bit_depth : ℕ := 8)
    (in_int : Bool := false) : ℝ :=
  let I_max : ℝ := 2 ^ bit_depth - 1
  let X_p' : ℝ := if in_int then X_p else X_p * I_max
  let E_t : ℝ := (16 : ℝ) ^ ((1.8 : ℝ) / (1 - 1.8))
  if X_p' < 16 * E_t * I_max then X_p' / (16 * I_max)
  else spow (X_p' / I_max) 1.8

/-- `cctf_encoding_RIMMRGB` (rimm_romm_rgb.py lines 219-293).  The
`np.select` condition list is `[X < 0, X < 0.018, X >= 0.018, X > E_clip]`
with choices `[0, 4.5 X, 1.099 spow(X, 0.45) - 0.099, I_max]`; first
true condition wins, default 0. -/
noncomputable def cctf_encoding_RIMMRGB (X : ℝ) (bit_depth : ℕ := 8)
    (out_int : Bool := false) (E_clip : ℝ := 2.0) : ℝ :=
  let I_max : ℝ := 2 ^ bit_depth - 1
  let V_clip : ℝ := 1.099 * spow E_clip 0.45 - 0.099
  let q : ℝ := I_max / V_clip
  let X_p : ℝ := q *
    (if X < 0.0 then 0
     else if X < 0.018 then 4.5 * X
     else if X ≥ 0.018 then 1.099 * spow X 0.45 - 0.099
     else if X > E_clip then I_max
     else 0)
  if out_int then (npRound X_p : ℝ) else X_p / I_max

/-- `cctf_decoding_RIMMRGB` (rimm_romm_rgb.py lines 296-371); the
`domain_range_scale("ignore")` wrapper around the recursive
`cctf_encoding_RIMMRGB` call is transparent under the modelled identity
scale. -/
noncomputable def cctf_decoding_RIMMRGB (X_p : ℝ) (bit_depth : ℕ := 8)
    (in_int : Bool := false) (E_clip : ℝ := 2.0) : ℝ :=
  let I_max : ℝ := 2 ^ bit_depth - 1
  let X_p' : ℝ := if in_int then X_p else X_p * I_max
  let V_clip : ℝ := 1.099 * spow E_clip 0.45 - 0.099
  let m : ℝ := V_clip * X_p' / I_max
  if X_p' / I_max < cctf_encoding_RIMMRGB 0.018 bit_depth false E_clip then
    m / 4.5
  else spow ((m + 0.099) / 1.099) (1 / 0.45)

/-- `log_encoding_ERIMMRGB` (rimm_romm_rgb.py lines 374-460).  The
`np.select` condition list is `[X < 0, X <= E_t, X > E_t, X > E_clip]`;
first true condition wins, default 0. -/
noncomputable def log_encoding_ERIMMRGB (X : ℝ) (bit_depth : ℕ := 8)
    (out_int : Bool := false) (E_min : ℝ := 0.001)
    (E_clip : ℝ := 316.2) : ℝ :=
  let I_max : ℝ := 2 ^ bit_depth - 1
  let E_t : ℝ := Real.exp 1 * E_min
  let l_E_t : ℝ := Real.log E_t
  let l_E_min : ℝ := Real.log E_min
  let l_E_clip : ℝ := Real.log E_clip
  let X_p : ℝ :=
    if X < 0.0 then 0
    else if X ≤ E_t then
      I_max * ((l_E_t - l_E_min) / (l_E_clip - l_E_min)) * X / E_t
    else if X > E_t then
      I_max * ((Real.log X - l_E_min) / (l_E_clip - l_E_min))
    else if X > E_clip then I_max
    else 0
  if out_int then (npRound X_p : ℝ) else X_p / I_max

/-- `log_decoding_ERIMMRGB` (rimm_romm_rgb.py lines 463-540). -/
noncomputable def log_decoding_ERIMMRGB (X_p : ℝ) (bit_depth : ℕ := 8)
    (in_int : Bool := false) (E_min : ℝ := 0.001)
    (E_clip : ℝ := 316.2) : ℝ :=
  let I_max : ℝ := 2 ^ bit_depth - 1
  let X_p' : ℝ := if in_int then X_p else X_p * I_max
  let E_t : ℝ := Real.exp 1 * E_min
  let l_E_t : ℝ := Real.log E_t
  let l_E_min : ℝ := Real.log E_min
  let l_E_clip : ℝ := Real.log E_clip
  if X_p' ≤ I_max * ((l_E_t - l_E_min) / (l_E_clip - l_E_min)) then
    ((l_E_clip - l_E_min) / (l_E_t - l_E_min)) * (X_p' * E_t / I_max)
  else Real.exp (X_p' / I_max * (l_E_clip - l_E_min) + l_E_min)

/-! # Theorems

## Digit strings -/

theorem digitCharOf_isDigit {n : ℕ} (h : n < 10) :
    (digitCharOf n).isDigit = true := by
  interval_cases n <;> decide

theorem digitVal_digitCharOf {n : ℕ} (h : n < 10) :
    digitVal (digitCharOf n) = n := by
  interval_cases n <;> decide

theorem natDigitsRev_lt (n : ℕ) : ∀ d ∈ natDigitsRev n, d < 10 := by
  induction n using Nat.strong_induction_on with
  | _ n ih =>
    rw [natDigitsRev]
    split
    · simp
    · next h =>
      intro d hd
      rcases List.mem_cons.mp hd with h1 | h2
      · subst h1; exact Nat.mod_lt _ (by norm_num)
      · exact ih (n / 10)
          (Nat.div_lt_self (Nat.pos_of_ne_zero h) (by norm_num)) d h2

theorem natOfDigitsRev_natDigitsRev (n : ℕ) :
    natOfDigitsRev (natDigitsRev n) = n := by
  induction n using Nat.strong_induction_on with
  | _ n ih =>
    rw [natDigitsRev]
    split
    · next h => simp [natOfDigitsRev, h]
    · next h =>
      have := ih (n / 10)
        (Nat.div_lt_self (Nat.pos_of_ne_zero h) (by norm_num))
      simp only [natOfDigitsRev, List.foldr_cons] at *
      omega

theorem natDigitsRev_length {n d : ℕ} (h : n < 10 ^ d) :
    (natDigitsRev n).length ≤ d := by
  induction d generalizing n with
  | zero =>
    have : n = 0 := by simpa using h
    subst this; rw [natDigitsRev]; simp
  | succ d ih =>
    rw [natDigitsRev]
    split
    · simp
    · next hn =>
      simp only [List.length_cons, Nat.add_le_add_iff_right,
        Nat.succ_le_succ_iff]
      refine ih ?_
      rw [Nat.div_lt_iff_lt_mul (by norm_num : (0:ℕ) < 10)]
      calc n < 10 ^ (d + 1) := h
        _ = 10 ^ d * 10 := by ring

theorem digitsVal_foldl (a : ℕ) (l : List Char) :
    l.foldl (fun a c => 10 * a + digitVal c) a =
      a * 10 ^ l.length + digitsVal l := by
  induction l generalizing a with
  | nil => simp [digitsVal]
  | cons c cs ih =>
    have h1 := ih (10 * a + digitVal c)
    have h2 := ih (10 * 0 + digitVal c)
    simp only [digitsVal, List.foldl_cons, List.length_cons] at *
    rw [h1, h2]; ring

theorem digitsVal_append (xs ys : List Char) :
    digitsVal (xs ++ ys) = digitsVal xs * 10 ^ ys.length + digitsVal ys := by
  simp only [digitsVal, List.foldl_append]
  exact digitsVal_foldl _ ys

theorem digitsVal_replicate_zero (k : ℕ) :
    digitsVal (List.replicate k '0') = 0 := by
  induction k with
  | zero => rfl
  | succ k ih =>
    have : digitsVal (List.replicate (k + 1) '0') =
        digitsVal (List.replicate k '0' ++ ['0']) := by
      rw [← List.replicate_succ']
    rw [this, digitsVal_append, ih]; rfl

theorem digitsVal_padZeros (d : ℕ) (l : List Char) :
    digitsVal (padZeros d l) = digitsVal l := by
  rw [padZeros, digitsVal_append, digitsVal_replicate_zero]; ring

theorem padZeros_length {d : ℕ} {l : List Char} (h : l.length ≤ d) :
    (padZeros d l).length = d := by
  simp [padZeros]; omega

theorem digitsVal_reverse_map (l : List ℕ) (h : ∀ d ∈ l, d < 10) :
    digitsVal ((l.map digitCharOf).reverse) = natOfDigitsRev l := by
  induction l with
  | nil => rfl
  | cons d ds ih =>
    have hd : d < 10 := h d (List.mem_cons_self ..)
    have hds : ∀ x ∈ ds, x < 10 := fun x hx => h x (List.mem_cons_of_mem _ hx)
    simp only [List.map_cons, List.reverse_cons]
    rw [digitsVal_append, ih hds]
    simp [digitsVal, natOfDigitsRev, digitVal_digitCharOf hd]
    ring

theorem natToDec_ne_nil (n : ℕ) : natToDec n ≠ [] := by
  rw [natToDec]
  split
  · simp
  · next h =>
    simp only [ne_eq, List.reverse_eq_nil_iff, List.map_eq_nil_iff]
    rw [natDigitsRev]; simp [h]

theorem digitsVal_natToDec (n : ℕ) : digitsVal (natToDec n) = n := by
  rw [natToDec]
  split
  · next h => subst h; rfl
  · rw [digitsVal_reverse_map _ (natDigitsRev_lt n),
      natOfDigitsRev_natDigitsRev]

theorem natToDec_isDigit (n : ℕ) : ∀ c ∈ natToDec n, c.isDigit = true := by
  rw [natToDec]
  split
  · intro c hc; simp at hc; subst hc; decide
  · intro c hc
    simp only [List.mem_reverse, List.mem_map] at hc
    obtain ⟨d, hd, rfl⟩ := hc
    exact digitCharOf_isDigit (natDigitsRev_lt n d hd)

theorem natToDec_length_le {n d : ℕ} (h1 : n < 10 ^ d) (h2 : 1 ≤ d) :
    (natToDec n).length ≤ d := by
  rw [natToDec]
  split
  · simpa using h2
  · simpa using natDigitsRev_length h1

/-! ## Character classes -/

theorem isDigit_not_ws {c : Char} (h : c.isDigit = true) :
    isSpace c = false := by
  rw [isSpace]
  by_contra hw
  simp only [Bool.not_eq_false] at hw
  rw [Char.isWhitespace] at hw
  simp only [Bool.or_eq_true, beq_iff_eq, decide_eq_true_eq] at hw
  rcases hw with ((rfl | rfl) | rfl) | rfl <;> exact absurd h (by decide)

theorem isDigit_ne {c : Char} (h : c.isDigit = true) :
    c ≠ '-' ∧ c ≠ '+' ∧ c ≠ '#' ∧ c ≠ '.' := by
  refine ⟨?_, ?_, ?_, ?_⟩ <;> rintro rfl <;> exact absurd h (by decide)

/-! ## takeWhile / dropWhile over all-true prefixes -/

theorem takeWhile_all_append (p : Char → Bool) {xs : List Char}
    (ys : List Char) (h : ∀ c ∈ xs, p c = true) :
    (xs ++ ys).takeWhile p = xs ++ ys.takeWhile p := by
  induction xs with
  | nil => simp
  | cons c cs ih =>
    have hc : p c = true := h c (List.mem_cons_self ..)
    simp only [List.cons_append, List.takeWhile_cons, hc, if_true]
    rw [ih (fun x hx => h x (List.mem_cons_of_mem _ hx))]

theorem dropWhile_all_append (p : Char → Bool) {xs : List Char}
    (ys : List Char) (h : ∀ c ∈ xs, p c = true) :
    (xs ++ ys).dropWhile p = ys.dropWhile p := by
  induction xs with
  | nil => simp
  | cons c cs ih =>
    have hc : p c = true := h c (List.mem_cons_self ..)
    simp only [List.cons_append, List.dropWhile_cons, hc, if_true]
    exact ih (fun x hx => h x (List.mem_cons_of_mem _ hx))

theorem takeWhile_all (p : Char → Bool) {l : List Char}
    (h : ∀ c ∈ l, p c = true) : l.takeWhile p = l := by
  simpa using takeWhile_all_append p [] h

theorem dropWhile_all (p : Char → Bool) {l : List Char}
    (h : ∀ c ∈ l, p c = true) : l.dropWhile p = [] := by
  simpa using dropWhile_all_append p [] h

/-! ## strip and tokens -/

theorem stripChars_eq_self {l : List Char}
    (h1 : ∀ c, l.head? = some c → isSpace c = false)
    (h2 : ∀ c, l.getLast? = some c → isSpace c = false) :
    stripChars l = l := by
  rw [stripChars]
  have hd : l.dropWhile isSpace = l := by
    cases l with
    | nil => rfl
    | cons c r => rw [List.dropWhile_cons, h1 c rfl]; simp
  rw [hd]
  have hr : l.reverse.dropWhile isSpace = l.reverse := by
    cases hrev : l.reverse with
    | nil => rfl
    | cons c r =>
      have hc : l.getLast? = some c := by
        rw [← List.head?_reverse, hrev]; rfl
      rw [List.dropWhile_cons, h2 c hc]; simp
  rw [hr, List.reverse_reverse]

theorem tokensAux_end (t : List Char) (acc : List Char) (ht : noWS t) :
    tokensAux t acc =
      if acc = [] ∧ t = [] then [] else [acc.reverse ++ t] := by
  induction t generalizing acc with
  | nil =>
    rw [tokensAux]
    rcases Decidable.em (acc = []) with h | h <;>
      simp [List.isEmpty_iff, h]
  | cons c cs ih =>
    have hc : isSpace c = false := ht c (List.mem_cons_self ..)
    have hcs : noWS cs := fun x hx => ht x (List.mem_cons_of_mem _ hx)
    rw [tokensAux]
    simp only [hc, Bool.false_eq_true, if_false]
    rw [ih (c :: acc) hcs]
    simp

theorem tokensAux_mid (t rest : List Char) (acc : List Char) (ht : noWS t) :
    tokensAux (t ++ ' ' :: rest) acc =
      if acc = [] ∧ t = [] then tokensAux rest []
      else (acc.reverse ++ t) :: tokensAux rest [] := by
  induction t generalizing acc with
  | nil =>
    rw [List.nil_append, tokensAux]
    rcases Decidable.em (acc = []) with h | h <;>
      simp [isSpace, List.isEmpty_iff, h]
  | cons c cs ih =>
    have hc : isSpace c = false := ht c (List.mem_cons_self ..)
    have hcs : noWS cs := fun x hx => ht x (List.mem_cons_of_mem _ hx)
    rw [List.cons_append, tokensAux]
    simp only [hc, Bool.false_eq_true, if_false]
    rw [ih (c :: acc) hcs]
    simp

theorem tokensOf_append_space (t rest : List Char) (ht : noWS t)
    (hne : t ≠ []) : tokensOf (t ++ ' ' :: rest) = t :: tokensOf rest := by
  rw [tokensOf, tokensAux_mid t rest [] ht]
  simp [hne, tokensOf]

theorem tokensOf_single (t : List Char) (ht : noWS t) (hne : t ≠ []) :
    tokensOf t = [t] := by
  rw [tokensOf, tokensAux_end t [] ht]
  simp [hne]

/-! ## Formatted numbers: shape, charset and parse round-trip -/

theorem padZeros_isDigit (d : ℕ) {l : List Char}
    (h : ∀ c ∈ l, c.isDigit = true) :
    ∀ c ∈ padZeros d l, c.isDigit = true := by
  intro c hc
  rcases List.mem_append.mp hc with h1 | h2
  · rw [List.eq_of_mem_replicate h1]; decide
  · exact h c h2

theorem fixedBody_mem (d m : ℕ) :
    ∀ c ∈ fixedBody d m, c.isDigit = true ∨ c = '.' := by
  rw [fixedBody]
  split
  · exact fun c hc => Or.inl (natToDec_isDigit _ c hc)
  · intro c hc
    rcases List.mem_append.mp hc with h1 | h2
    · exact Or.inl (natToDec_isDigit _ c h1)
    · rcases List.mem_cons.mp h2 with rfl | h3
      · exact Or.inr rfl
      · exact Or.inl (padZeros_isDigit d (natToDec_isDigit _) c h3)

theorem fixedBody_head (d m : ℕ) :
    ∃ c r, fixedBody d m = c :: r ∧ c.isDigit = true := by
  rw [fixedBody]
  split
  · obtain ⟨c, r, hc⟩ := List.exists_cons_of_ne_nil (natToDec_ne_nil m)
    exact ⟨c, r, hc, natToDec_isDigit m c (hc ▸ List.mem_cons_self ..)⟩
  · obtain ⟨c, r, hc⟩ :=
      List.exists_cons_of_ne_nil (natToDec_ne_nil (m / 10 ^ d))
    refine ⟨c, r ++ '.' :: padZeros d (natToDec (m % 10 ^ d)), ?_, ?_⟩
    · rw [hc, List.cons_append]
    · exact natToDec_isDigit _ c (hc ▸ List.mem_cons_self ..)

theorem fmtFixedChars_mem (d : ℕ) (q : ℚ) :
    ∀ c ∈ fmtFixedChars d q, c.isDigit = true ∨ c = '.' ∨ c = '-' := by
  rw [fmtFixedChars]
  split
  · intro c hc
    rcases List.mem_cons.mp hc with rfl | h2
    · exact Or.inr (Or.inr rfl)
    · rcases fixedBody_mem _ _ c h2 with h | h
      · exact Or.inl h
      · exact Or.inr (Or.inl h)
  · intro c hc
    rcases fixedBody_mem _ _ c hc with h | h
    · exact Or.inl h
    · exact Or.inr (Or.inl h)

theorem fmtFixedChars_noWS (d : ℕ) (q : ℚ) : noWS (fmtFixedChars d q) := by
  intro c hc
  rcases fmtFixedChars_mem d q c hc with h | h | h
  · exact isDigit_not_ws h
  · subst h; decide
  · subst h; decide

theorem fmtFixedChars_head (d : ℕ) (q : ℚ) :
    ∃ c r, fmtFixedChars d q = c :: r ∧ (c.isDigit = true ∨ c = '-') := by
  rw [fmtFixedChars]
  split
  · exact ⟨'-', fixedBody d (rndScaled d q).natAbs, rfl, Or.inr rfl⟩
  · obtain ⟨c, r, hc, hdig⟩ := fixedBody_head d (rndScaled d q).natAbs
    exact ⟨c, r, hc, Or.inl hdig⟩

theorem fmtFixedChars_ne_nil (d : ℕ) (q : ℚ) : fmtFixedChars d q ≠ [] := by
  obtain ⟨c, r, hc, _⟩ := fmtFixedChars_head d q
  rw [hc]; simp

theorem parseUnsigned_fixedBody (d m : ℕ) :
    parseUnsigned (fixedBody d m) = some ((m : ℚ) / 10 ^ d) := by
  have hadapt : ∀ (l : List Char), (∀ c ∈ l, c.isDigit = true) →
      ∀ c ∈ l, isDigitChar c = true := fun l h c hc => h c hc
  rw [fixedBody]
  split
  · next hd =>
    subst hd
    rw [parseUnsigned]
    simp only [takeWhile_all isDigitChar (hadapt _ (natToDec_isDigit m)),
      dropWhile_all isDigitChar (hadapt _ (natToDec_isDigit m))]
    simp [List.isEmpty_iff, natToDec_ne_nil m, digitsVal_natToDec]
  · next hd =>
    have hd1 : 1 ≤ d := Nat.one_le_iff_ne_zero.mpr hd
    set A := natToDec (m / 10 ^ d) with hA
    set B := padZeros d (natToDec (m % 10 ^ d)) with hB
    have hAdig : ∀ c ∈ A, isDigitChar c = true :=
      hadapt _ (natToDec_isDigit _)
    have hBdig : ∀ c ∈ B, isDigitChar c = true :=
      hadapt _ (padZeros_isDigit d (natToDec_isDigit _))
    have hBlen : B.length = d :=
      padZeros_length (natToDec_length_le (Nat.mod_lt m (by positivity)) hd1)
    rw [parseUnsigned]
    simp only [takeWhile_all_append isDigitChar _ hAdig,
      dropWhile_all_append isDigitChar _ hAdig]
    rw [List.takeWhile_cons, List.dropWhile_cons]
    have hdot : isDigitChar '.' = false := by decide
    simp only [hdot, Bool.false_eq_true, if_false]
    simp only [List.isEmpty_cons, List.append_nil, List.headD_cons,
      List.tail_cons]
    rw [takeWhile_all isDigitChar hBdig, dropWhile_all isDigitChar hBdig]
    have hAne : A.isEmpty = false := by
      simp [List.isEmpty_iff, hA, natToDec_ne_nil]
    simp only [hAne, List.isEmpty_nil, Bool.false_eq_true, false_and,
      not_false_eq_true, and_true, true_and, if_true, if_pos]
    have hvA : digitsVal A = m / 10 ^ d := digitsVal_natToDec _
    have hvB : digitsVal B = m % 10 ^ d := by
      rw [hB, digitsVal_padZeros, digitsVal_natToDec]
    rw [hvA, hvB, hBlen, if_neg not_false]
    congr 1
    have hpow : ((10 : ℚ) ^ d) ≠ 0 := by positivity
    rw [eq_div_iff hpow, add_mul, div_mul_cancel₀ _ hpow]
    exact_mod_cast Nat.div_add_mod' m (10 ^ d)

/-- Parsing a formatted number recovers exactly the rounded value the
text denotes. -/
theorem parseRatChars_fmtFixedChars (d : ℕ) (q : ℚ) :
    parseRatChars (fmtFixedChars d q) = some (rndAt d q) := by
  rw [rndAt, fmtFixedChars]
  split
  · next hneg =>
    rw [parseRatChars]
    simp only [List.headD_cons, List.tail_cons, if_true, eq_self_iff_true]
    rw [parseUnsigned_fixedBody]
    simp only [Option.map_some']
    congr 1
    have habs : ((rndScaled d q).natAbs : ℚ) = -((rndScaled d q : ℤ) : ℚ) := by
      rw [Int.cast_natAbs]
      exact_mod_cast abs_of_neg hneg
    rw [habs]; ring
  · next hpos =>
    obtain ⟨c, r, hc, hdig⟩ := fixedBody_head d (rndScaled d q).natAbs
    rw [parseRatChars, hc]
    obtain ⟨h1, h2, _, _⟩ := isDigit_ne hdig
    simp only [List.headD_cons, if_neg h1, if_neg h2]
    rw [← hc, parseUnsigned_fixedBody]
    congr 1
    congr 1
    push_cast [Int.cast_natAbs]
    rw [abs_of_nonneg (by exact_mod_cast not_lt.mp hpos :
      (0 : ℚ) ≤ (rndScaled d q : ℚ))]

/-- The formatted value is within half an ulp of the original. -/
theorem rndAt_close (d : ℕ) (q : ℚ) :
    |rndAt d q - q| ≤ 1 / (2 * 10 ^ d) := by
  rw [rndAt, rndScaled]
  have h10 : (0 : ℚ) < 10 ^ d := by positivity
  have h1 := Int.floor_le (q * 10 ^ d + 1 / 2)
  have h2 := Int.lt_floor_add_one (q * 10 ^ d + 1 / 2)
  set n : ℤ := ⌊q * 10 ^ d + 1 / 2⌋
  have key : |(n : ℚ) - q * 10 ^ d| ≤ 1 / 2 := by
    rw [abs_le]; constructor <;> linarith
  have heq : (n : ℚ) / 10 ^ d - q = ((n : ℚ) - q * 10 ^ d) / 10 ^ d := by
    field_simp
    ring
  rw [heq, abs_div, abs_of_pos h10,
    show (1 : ℚ) / (2 * 10 ^ d) = (1 / 2) / 10 ^ d by ring,
    div_le_div_iff_of_pos_right h10]
  exact key

/-! ## Strip fixed points -/

theorem dropWhile_eq_self_head {p : Char → Bool} {l : List Char}
    (h : l.dropWhile p = l) : ∀ x, l.head? = some x → p x = false := by
  intro x hx
  cases l with
  | nil => simp at hx
  | cons c r =>
    cases hx
    by_contra hp
    simp only [Bool.not_eq_false] at hp
    rw [List.dropWhile_cons, if_pos hp] at h
    have h1 := (List.dropWhile_suffix (l := r) p).sublist.length_le
    have h2 := congrArg List.length h
    simp at h2
    omega

theorem mem_of_getLast?_eq {l : List Char} {x : Char}
    (h : l.getLast? = some x) : x ∈ l := by
  obtain ⟨hne, hx⟩ := List.mem_getLast?_eq_getLast (by simpa using h)
  exact hx ▸ List.getLast_mem hne

theorem stripChars_of_noWS {l : List Char} (h : noWS l) :
    stripChars l = l := by
  refine stripChars_eq_self ?_ ?_
  · intro c hc
    exact h c (by cases l with
      | nil => simp at hc
      | cons a r => cases hc; exact List.mem_cons_self ..)
  · intro c hc
    exact h c (mem_of_getLast?_eq hc)

theorem stripChars_fixed_ends {l : List Char} (h : stripChars l = l) :
    (∀ x, l.head? = some x → isSpace x = false) ∧
      (∀ x, l.getLast? = some x → isSpace x = false) := by
  rw [stripChars] at h
  have hlen1 := (List.dropWhile_suffix (l := l) isSpace).sublist.length_le
  have hlen2 := (List.dropWhile_suffix
    (l := (l.dropWhile isSpace).reverse) isSpace).sublist.length_le
  have hlen := congrArg List.length h
  simp only [List.length_reverse] at hlen hlen2
  have hinner : (l.dropWhile isSpace).length = l.length := by omega
  have hfix1 : l.dropWhile isSpace = l :=
    (List.dropWhile_suffix isSpace).eq_of_length hinner
  rw [hfix1] at h
  have houter : l.reverse.dropWhile isSpace = l.reverse := by
    have : (l.reverse.dropWhile isSpace).reverse.length = l.length := by
      rw [h]
    simp only [List.length_reverse] at this
    exact (List.dropWhile_suffix isSpace).eq_of_length
      (by simpa using this)
  refine ⟨dropWhile_eq_self_head hfix1, ?_⟩
  intro x hx
  refine dropWhile_eq_self_head houter x ?_
  rw [List.head?_reverse]
  exact hx

theorem stripChars_cons_space (l : List Char) :
    stripChars (' ' :: l) = stripChars l := by
  rw [stripChars, stripChars, List.dropWhile_cons, if_pos (by decide)]

/-! ## Stripping a comment line with arbitrary inner whitespace -/

theorem rdropWhile_cons_char (p : Char → Bool) (a : Char) (xs : List Char) :
    List.rdropWhile p (a :: xs) =
      if List.rdropWhile p xs = [] then (if p a then [] else [a])
      else a :: List.rdropWhile p xs := by
  induction xs using List.reverseRecOn with
  | nil =>
    rw [List.rdropWhile_nil, if_pos rfl, List.rdropWhile_singleton]
  | append_singleton ys y ih =>
    by_cases hy : p y = true
    · rw [show a :: (ys ++ [y]) = (a :: ys) ++ [y] from
        (List.cons_append ..).symm,
        List.rdropWhile_concat, if_pos hy, List.rdropWhile_concat,
        if_pos hy, ih]
    · rw [show a :: (ys ++ [y]) = (a :: ys) ++ [y] from
        (List.cons_append ..).symm,
        List.rdropWhile_concat, if_neg hy, List.rdropWhile_concat,
        if_neg hy, if_neg (by simp : ¬(ys ++ [y] = [])), List.cons_append]

theorem rdropWhile_cons_of_neg {a : Char} (xs : List Char)
    (ha : isSpace a = false) :
    List.rdropWhile isSpace (a :: xs) =
      a :: List.rdropWhile isSpace xs := by
  rw [rdropWhile_cons_char]
  by_cases h : List.rdropWhile isSpace xs = []
  · rw [if_pos h, if_neg (by simp [ha]), h]
  · rw [if_neg h]

theorem stripChars_eq_rdrop (l : List Char) :
    stripChars l = List.rdropWhile isSpace (l.dropWhile isSpace) := rfl

theorem stripChars_cons_of_neg {a : Char} (xs : List Char)
    (ha : isSpace a = false) :
    stripChars (a :: xs) = a :: List.rdropWhile isSpace xs := by
  rw [stripChars_eq_rdrop, List.dropWhile_cons, if_neg (by simp [ha]),
    rdropWhile_cons_of_neg xs ha]

theorem stripChars_cons_ws {a : Char} (xs : List Char)
    (ha : isSpace a = true) : stripChars (a :: xs) = stripChars xs := by
  rw [stripChars, stripChars, List.dropWhile_cons, if_pos ha]

theorem stripChars_eq_nil_of_all_ws {xs : List Char}
    (h : ∀ x ∈ xs, isSpace x = true) : stripChars xs = [] := by
  rw [stripChars, List.dropWhile_eq_nil_iff.mpr h]
  rfl

theorem stripChars_rdrop (l : List Char) :
    stripChars (List.rdropWhile isSpace l) = stripChars l := by
  induction l with
  | nil => rfl
  | cons a xs ih =>
    by_cases ha : isSpace a = true
    · rw [rdropWhile_cons_char]
      by_cases hn : List.rdropWhile isSpace xs = []
      · rw [if_pos hn, if_pos ha, stripChars_cons_ws xs ha,
          stripChars_eq_nil_of_all_ws (List.rdropWhile_eq_nil_iff.mp hn)]
        rfl
      · rw [if_neg hn, stripChars_cons_ws _ ha, stripChars_cons_ws xs ha,
          ih]
    · have ha' : isSpace a = false := by
        revert ha
        cases isSpace a <;> simp
      rw [rdropWhile_cons_of_neg xs ha', stripChars_cons_of_neg _ ha',
        stripChars_cons_of_neg xs ha', List.rdropWhile_idempotent]

theorem stripChars_comment_shape (c : List Char) :
    stripChars ('#' :: ' ' :: c) =
      '#' :: List.rdropWhile isSpace (' ' :: c) :=
  stripChars_cons_of_neg _ (by decide)

/-! ## Token shapes of the writer's lines -/

theorem numToken_ne_keywords {l : List Char} {c : Char} {r : List Char}
    (hl : l = c :: r) (hc : c.isDigit = true ∨ c = '-') :
    l ≠ "Version".data ∧ l ≠ "From".data ∧ l ≠ "Length".data ∧
      l ≠ "Components".data ∧ l ≠ ['\x7b'] ∧ l ≠ ['\x7d'] := by
  subst hl
  have hne : c ≠ 'V' ∧ c ≠ 'F' ∧ c ≠ 'L' ∧ c ≠ 'C' ∧
      c ≠ '\x7b' ∧ c ≠ '\x7d' := by
    rcases hc with h | rfl
    · refine ⟨?_, ?_, ?_, ?_, ?_, ?_⟩ <;> rintro rfl <;>
        exact absurd h (by decide)
    · exact ⟨by decide, by decide, by decide, by decide, by decide,
        by decide⟩
  obtain ⟨h1, h2, h3, h4, h5, h6⟩ := hne
  refine ⟨?_, ?_, ?_, ?_, ?_, ?_⟩ <;> intro he
  · exact h1 (by
      rw [show ("Version".data) = 'V' :: "ersion".data from rfl,
        List.cons_eq_cons] at he
      exact he.1)
  · exact h2 (by
      rw [show ("From".data) = 'F' :: "rom".data from rfl,
        List.cons_eq_cons] at he
      exact he.1)
  · exact h3 (by
      rw [show ("Length".data) = 'L' :: "ength".data from rfl,
        List.cons_eq_cons] at he
      exact he.1)
  · exact h4 (by
      rw [show ("Components".data) = 'C' :: "omponents".data from rfl,
        List.cons_eq_cons] at he
      exact he.1)
  · exact h5 (by rw [List.cons_eq_cons] at he; exact he.1)
  · exact h6 (by rw [List.cons_eq_cons] at he; exact he.1)

/-! ## Evaluating the reader's line step on each line shape -/

theorem stepL_comment (st : RState) (rest : List Char) :
    stepL st ('#' :: rest) =
      .ok { st with comments := st.comments ++ [stripChars rest] } := by
  rw [stepL, if_pos (show ('#' :: rest).headD ' ' = '#' from rfl)]
  rfl

theorem stepL_version (st : RState) :
    stepL st ("Version 1".data) = .ok st := rfl

theorem stepL_braceOpen (st : RState) :
    stepL st ['\x7b'] = .ok st := rfl

theorem stepL_braceClose (st : RState) :
    stepL st ['\x7d'] = .ok st := rfl

theorem stepL_components1 (st : RState) :
    stepL st ("Components 1".data) =
      .ok { st with dimensions := 1 } := rfl

theorem stepL_components3 (st : RState) :
    stepL st ("Components 3".data) =
      .ok { st with dimensions := 2 } := rfl

theorem stepL_from (st : RState) {f1 f2 : List Char} {v1 v2 : ℚ}
    (h1 : parseRatChars f1 = some v1) (h2 : parseRatChars f2 = some v2)
    (hws1 : noWS f1) (hws2 : noWS f2) (hne1 : f1 ≠ []) (hne2 : f2 ≠ []) :
    stepL st ("From ".data ++ f1 ++ ' ' :: f2) =
      .ok { st with domainMin := v1, domainMax := v2 } := by
  have hshape : "From ".data ++ f1 ++ ' ' :: f2 =
      "From".data ++ ' ' :: (f1 ++ ' ' :: f2) := by
    rw [List.append_assoc]; rfl
  have htok : tokensOf ("From".data ++ ' ' :: (f1 ++ ' ' :: f2)) =
      ["From".data, f1, f2] := by
    rw [tokensOf_append_space _ _ (by decide) (by decide),
      tokensOf_append_space _ _ hws1 hne1, tokensOf_single _ hws2 hne2]
  have hmap : List.mapM parseRatChars [f1, f2] = some [v1, v2] := by
    rw [List.mapM_cons, h1, List.mapM_cons, h2, List.mapM_nil]
    rfl
  rw [hshape]
  simp only [stepL]
  rw [htok]
  simp only [List.isEmpty_cons, List.headD_cons, List.tail_cons]
  rw [hmap]
  rfl

theorem stepL_length (st : RState) {t : List Char}
    (hws : noWS t) (hne : t ≠ []) :
    stepL st ("Length ".data ++ t) = .ok st := by
  have hshape : "Length ".data ++ t = "Length".data ++ ' ' :: t := rfl
  have htok : tokensOf ("Length".data ++ ' ' :: t) = ["Length".data, t] := by
    rw [tokensOf_append_space _ _ (by decide) (by decide),
      tokensOf_single _ hws hne]
  rw [hshape]
  simp only [stepL]
  rw [htok]
  rfl

theorem stepL_dataRow (st : RState) {l t0 : List Char} {c : Char}
    {r : List Char} {rest : List (List Char)}
    (htok : tokensOf l = t0 :: rest) (ht0 : t0 = c :: r)
    (hc : c.isDigit = true ∨ c = '-')
    (hhd : ¬(l.headD ' ' = '#')) :
    stepL st l = .ok { st with data := st.data ++ [t0 :: rest] } := by
  obtain ⟨k1, k2, k3, k4, k5, k6⟩ := numToken_ne_keywords ht0 hc
  simp only [stepL]
  rw [htok]
  simp only [List.isEmpty_cons, List.headD_cons, List.tail_cons]
  rw [if_neg hhd, if_neg (by simp : ¬((false : Bool) = true)),
    if_neg k1, if_neg k2, if_neg k3, if_neg k4,
    if_neg (not_or.mpr ⟨k5, k6⟩)]

/-! ## Folding the reader over prepared lines -/

theorem foldlM_stepL_cons {st st' : RState} (l : List Char)
    (ls : List (List Char)) (h : stepL st l = .ok st') :
    List.foldlM stepL st (l :: ls) = List.foldlM stepL st' ls := by
  rw [List.foldlM_cons, h]; rfl

theorem foldlM_stepL_cons_error {st : RState} (l : List Char)
    (ls : List (List Char)) {e : String} (h : stepL st l = .error e) :
    List.foldlM stepL st (l :: ls) = .error e := by
  rw [List.foldlM_cons, h]; rfl

/-! ## Parse evaluation on explicit tokens -/

theorem parseUnsigned_split (ip fp : List Char)
    (hip : ∀ c ∈ ip, isDigitChar c = true)
    (hfp : ∀ c ∈ fp, isDigitChar c = true)
    (hne : ¬(ip = [] ∧ fp = [])) :
    parseUnsigned (ip ++ '.' :: fp) =
      some ((digitsVal ip : ℚ) + (digitsVal fp : ℚ) / 10 ^ fp.length) := by
  rw [parseUnsigned]
  simp only [takeWhile_all_append isDigitChar _ hip,
    dropWhile_all_append isDigitChar _ hip]
  rw [List.takeWhile_cons, List.dropWhile_cons]
  have hdot : isDigitChar '.' = false := by decide
  simp only [hdot, Bool.false_eq_true, if_false]
  simp only [List.isEmpty_cons, List.append_nil, List.headD_cons,
    List.tail_cons]
  rw [takeWhile_all isDigitChar hfp, dropWhile_all isDigitChar hfp]
  rw [if_neg (by simp : ¬((false : Bool) = true)), if_pos]
  refine ⟨by simp, by simp, ?_⟩
  simp only [List.isEmpty_iff]
  intro hcon
  exact hne hcon

theorem parseRatChars_pos {l : List Char} {c : Char} {r : List Char}
    (hl : l = c :: r) (hc1 : c ≠ '-') (hc2 : c ≠ '+') :
    parseRatChars l = parseUnsigned l := by
  subst hl
  rw [parseRatChars]
  simp only [List.headD_cons, if_neg hc1, if_neg hc2]

theorem parseRatChars_neg (l : List Char) :
    parseRatChars ('-' :: l) = (parseUnsigned l).map (fun q => -q) := by
  rw [parseRatChars]
  simp only [List.headD_cons, if_true, eq_self_iff_true, List.tail_cons]

/-! ## Building the LUT from a final reader state -/

theorem mapM_single_tokens {toks : List (List Char)} {vals : List ℚ}
    (hparse : List.Forall₂ (fun t v => parseRatChars t = some v) toks vals) :
    (toks.map (fun t => [t])).mapM (fun r => r.mapM parseRatChars) =
      some (vals.map (fun v => [v])) := by
  induction hparse with
  | nil => rfl
  | cons h _ ih =>
    simp only [List.map_cons, List.mapM_cons, ih, h, List.mapM_nil,
      Option.pure_def, Option.bind_some]
    rfl

theorem buildLUT_single_tokens (title : String) (dm dM : ℚ)
    (toks : List (List Char)) (vals : List ℚ) (comments : List (List Char))
    (hlen : 2 ≤ vals.length) (hdom : dm < dM)
    (hparse : List.Forall₂ (fun t v => parseRatChars t = some v) toks vals) :
    buildLUT title { domainMin := dm
                     domainMax := dM
                     dimensions := 1
                     data := toks.map (fun t => [t])
                     comments := comments } =
      .ok (.inl ⟨vals, title, [dm, dM], comments.map String.mk⟩) := by
  have hmap := mapM_single_tokens hparse
  have hrows : asFloatArrayRows (toks.map (fun t => [t])) =
      .ok (vals.map (fun v => [v])) := by
    simp only [asFloatArrayRows]
    rw [hmap]
    simp only [Option.isNone_some, Bool.false_eq_true, if_false,
      Option.getD_some]
    rw [if_pos]
    rw [List.all_eq_true]
    intro x hx
    have hx2 : x ∈ (vals.map (fun v => [v])).tail :=  hx
    have : x ∈ vals.map (fun v => [v]) := List.mem_of_mem_tail hx2
    obtain ⟨v, _, rfl⟩ := List.mem_map.mp this
    cases hv : vals.map (fun v => [v]) with
    | nil => simp [hv] at hx2
    | cons r rs =>
      have hr : r.length = 1 := by
        have : r ∈ vals.map (fun v => [v]) := by rw [hv]; simp
        obtain ⟨w, _, rfl⟩ := List.mem_map.mp this
        rfl
      simp [hv, hr]
  have hsq : npSqueezeTo1D (vals.map (fun v => [v])) = .ok vals := by
    rw [npSqueezeTo1D, if_pos]
    · congr 1
      rw [List.map_map]
      exact List.map_id'' (fun _ => rfl) vals
    · rw [List.all_eq_true]
      intro x hx
      obtain ⟨v, _, rfl⟩ := List.mem_map.mp hx
      rfl
  have hval : (⟨vals, title, [dm, dM], comments.map String.mk⟩ :
      LUT1D).validB = true := by
    simp [LUT1D.validB, hlen, hdom]
  rw [buildLUT, hrows]
  show (npSqueezeTo1D (vals.map fun v => [v])).bind _ = _
  rw [hsq]
  show (mkLUT1D vals title [dm, dM] (comments.map String.mk)).bind _ = _
  rw [mkLUT1D]
  simp only [if_pos hval]
  rfl

theorem parse_token_neg01 : parseRatChars "-0.1".data = some (-1/10 : ℚ) := by
  rw [show ("-0.1".data) = '-' :: (['0'] ++ '.' :: ['1']) from rfl,
    parseRatChars_neg,
    parseUnsigned_split _ _ (by decide) (by decide) (by decide)]
  rw [show digitsVal ['0'] = 0 from rfl, show digitsVal ['1'] = 1 from rfl]
  norm_num

theorem parse_token_15 : parseRatChars "1.5".data = some (3/2 : ℚ) := by
  rw [parseRatChars_pos (show "1.5".data = '1' :: ".5".data from rfl)
      (by decide) (by decide),
    show ("1.5".data) = ['1'] ++ '.' :: ['5'] from rfl,
    parseUnsigned_split _ _ (by decide) (by decide) (by decide)]
  rw [show digitsVal ['1'] = 1 from rfl, show digitsVal ['5'] = 5 from rfl]
  norm_num

theorem parse_token_00 : parseRatChars "0.0".data = some (0 : ℚ) := by
  rw [parseRatChars_pos (show "0.0".data = '0' :: ".0".data from rfl)
      (by decide) (by decide),
    show ("0.0".data) = ['0'] ++ '.' :: ['0'] from rfl,
    parseUnsigned_split _ _ (by decide) (by decide) (by decide)]
  rw [show digitsVal ['0'] = 0 from rfl]
  norm_num

theorem parse_token_10 : parseRatChars "1.0".data = some (1 : ℚ) := by
  rw [parseRatChars_pos (show "1.0".data = '1' :: ".0".data from rfl)
      (by decide) (by decide),
    show ("1.0".data) = ['1'] ++ '.' :: ['0'] from rfl,
    parseUnsigned_split _ _ (by decide) (by decide) (by decide)]
  rw [show digitsVal ['1'] = 1 from rfl, show digitsVal ['0'] = 0 from rfl]
  norm_num

/-- C7: parsing the minimal 2-sample file whose lines are `Version 1`,
`From -0.1 1.5`, `Length 2`, `Components 1`, the brace-delimited rows
`0.0` and `1.0`, and the comment `# test` yields a LUT1D with domain
[-0.1, 1.5], table [0.0, 1.0] and comments ["test"]. -/
theorem spi1d_parse_minimal_file :
    read_LUT_SonySPI1D "test" ["Version 1", "From -0.1 1.5", "Length 2",
        "Components 1", "\x7b", "0.0", "1.0", "\x7d", "# test"] =
      .ok (.inl ⟨[0, 1], "test", [-1/10, 3/2], ["test"]⟩) := by
  rw [read_LUT_SonySPI1D, readL]
  have hpls : ((["Version 1", "From -0.1 1.5", "Length 2", "Components 1",
      "\x7b", "0.0", "1.0", "\x7d", "# test"].map String.data).map
        stripChars).filter (fun l => l ≠ []) =
      ["Version 1".data, "From -0.1 1.5".data, "Length 2".data,
       "Components 1".data, ['\x7b'], "0.0".data, "1.0".data, ['\x7d'],
       "# test".data] := by decide
  rw [hpls]
  rw [foldlM_stepL_cons _ _ (stepL_version {})]
  have hFrom : stepL {} ("From -0.1 1.5".data) =
      .ok { domainMin := -1/10, domainMax := 3/2 } := by
    rw [show ("From -0.1 1.5".data) =
      "From ".data ++ "-0.1".data ++ ' ' :: "1.5".data from rfl]
    exact stepL_from _ parse_token_neg01 parse_token_15
      (by decide) (by decide) (by decide) (by decide)
  rw [foldlM_stepL_cons _ _ hFrom]
  have hLen : stepL { domainMin := -1/10, domainMax := 3/2 }
      ("Length 2".data) = .ok { domainMin := -1/10, domainMax := 3/2 } := by
    rw [show ("Length 2".data) = "Length ".data ++ ['2'] from rfl]
    exact stepL_length _ (by decide) (by decide)
  rw [foldlM_stepL_cons _ _ hLen]
  rw [foldlM_stepL_cons _ _ (stepL_components1 _)]
  rw [foldlM_stepL_cons _ _ (stepL_braceOpen _)]
  have hRow1 : stepL { domainMin := -1/10
                       domainMax := 3/2
                       dimensions := 1 }
      ("0.0".data) = .ok { domainMin := -1/10
                           domainMax := 3/2
                           dimensions := 1
                           data := [["0.0".data]] } :=
    stepL_dataRow _ (by decide)
      (show "0.0".data = '0' :: ".0".data from rfl)
      (Or.inl (by decide)) (by decide)
  rw [foldlM_stepL_cons _ _ hRow1]
  have hRow2 : stepL { domainMin := -1/10
                       domainMax := 3/2
                       dimensions := 1
                       data := [["0.0".data]] }
      ("1.0".data) = .ok { domainMin := -1/10
                           domainMax := 3/2
                           dimensions := 1
                           data := [["0.0".data], ["1.0".data]] } :=
    stepL_dataRow _ (by decide)
      (show "1.0".data = '1' :: ".0".data from rfl)
      (Or.inl (by decide)) (by decide)
  rw [foldlM_stepL_cons _ _ hRow2]
  rw [foldlM_stepL_cons _ _ (stepL_braceClose _)]
  have hComm : stepL { domainMin := -1/10
                       domainMax := 3/2
                       dimensions := 1
                       data := [["0.0".data], ["1.0".data]] }
      ("# test".data) = .ok { domainMin := -1/10
                              domainMax := 3/2
                              dimensions := 1
                              data := [["0.0".data], ["1.0".data]]
                              comments := ["test".data] } := by
    rw [show ("# test".data) = '#' :: " test".data from rfl,
      stepL_comment]
    rw [show stripChars " test".data = "test".data from by decide]
    rfl
  rw [foldlM_stepL_cons _ _ hComm]
  rw [List.foldlM_nil]
  show buildLUT "test" { domainMin := -1/10
                         domainMax := 3/2
                         dimensions := 1
                         data := [["0.0".data], ["1.0".data]]
                         comments := ["test".data] } = _
  have hb := buildLUT_single_tokens "test" (-1/10) (3/2)
    ["0.0".data, "1.0".data] [0, 1] ["test".data]
    (by norm_num) (by norm_num)
    (.cons parse_token_00 (.cons parse_token_10 .nil))
  rw [show (List.map (fun t => [t]) ["0.0".data, "1.0".data]) =
    [["0.0".data], ["1.0".data]] from rfl] at hb
  rw [hb]
  rfl

/-! ## Evaluating the writer -/

theorem writeL_oneD (L : LUT1D) (d : ℕ) (hdom2 : L.domain.length = 2) :
    writeL (.single (.oneD L)) d = .ok
      (["Version 1".data,
        "From ".data ++ fmtFixedChars d (L.domain.getD 0 0) ++
          ' ' :: fmtFixedChars d (L.domain.getD 1 0),
        "Length ".data ++ natToDec L.table.length,
        "Components 1".data,
        ['\x7b']] ++ L.table.map (fun v => ' ' :: fmtFixedChars d v) ++
        [['\x7d']] ++ L.comments.map (fun c => '#' :: ' ' :: c.data)) := by
  have h1 : (LUTNode.oneD L).isDomainExplicit = false := by
    simp [LUTNode.isDomainExplicit, LUT1D.isDomainExplicit, hdom2]
  simp only [writeL, WriteLUTArg.effective, attest]
  rw [if_pos h1,
    if_pos (Or.inl (show (LUTNode.oneD L).is1D = true from rfl))]
  rfl

theorem pyUnique_uniform {m M : ℚ} (h : m < M) :
    pyUnique [m, m, m, M, M, M] = [m, M] := by
  rw [pyUnique]
  have hs : List.Sorted (fun a b => a ≤ b) [m, m, m, M, M, M] := by
    haveI : IsTrans ℚ (fun a b => a ≤ b) := ⟨fun _ _ _ => le_trans⟩
    rw [List.Sorted, ← List.chain'_iff_pairwise]
    simp [List.chain'_cons, h.le]
  rw [List.Sorted.insertionSort_eq hs]
  have hne : m ≠ M := ne_of_lt h
  rw [show ([m, m, m, M, M, M] : List ℚ).dedup = [m, M] from ?_]
  rw [List.dedup_cons_of_mem (by simp [List.mem_dedup]),
    List.dedup_cons_of_mem (by simp [List.mem_dedup]),
    List.dedup_cons_of_not_mem (by simp [List.mem_dedup, hne]),
    List.dedup_cons_of_mem (by simp [List.mem_dedup]),
    List.dedup_cons_of_mem (by simp [List.mem_dedup]),
    List.dedup_cons_of_not_mem (by simp), List.dedup_nil]

theorem mapM_fmtRow3 (d : ℕ) (rows : List (List ℚ))
    (h : ∀ r ∈ rows, r.length = 3) :
    rows.mapM (fmtRow3 d) = .ok (rows.map (fun r =>
      ' ' :: fmtFixedChars d (r.getD 0 0) ++
      ' ' :: fmtFixedChars d (r.getD 1 0) ++
      ' ' :: fmtFixedChars d (r.getD 2 0))) := by
  induction rows with
  | nil => rfl
  | cons r rs ih =>
    have hr : r.length = 3 := h r (List.mem_cons_self ..)
    obtain ⟨a, b, c, hrc⟩ : ∃ a b c, r = [a, b, c] := by
      match r, hr with
      | [a, b, c], _ => exact ⟨a, b, c, rfl⟩
    subst hrc
    rw [List.mapM_cons, ih (fun x hx => h x (List.mem_cons_of_mem _ hx))]
    rfl

theorem writeL_threeD (L : LUT3x1D) (d : ℕ) {m M : ℚ}
    (hdom : L.domain = [[m, m, m], [M, M, M]]) (hmM : m < M)
    (hrows : ∀ r ∈ L.table, r.length = 3) :
    writeL (.single (.threeD L)) d = .ok
      (["Version 1".data,
        "From ".data ++ fmtFixedChars d m ++ ' ' :: fmtFixedChars d M,
        "Length ".data ++ natToDec L.table.length,
        "Components 3".data,
        ['\x7b']] ++ L.table.map (fun r =>
          ' ' :: fmtFixedChars d (r.getD 0 0) ++
          ' ' :: fmtFixedChars d (r.getD 1 0) ++
          ' ' :: fmtFixedChars d (r.getD 2 0)) ++
        [['\x7d']] ++ L.comments.map (fun c => '#' :: ' ' :: c.data)) := by
  have h1 : (LUTNode.threeD L).isDomainExplicit = false := by
    simp [LUTNode.isDomainExplicit, LUT3x1D.isDomainExplicit, hdom]
  have hflat : L.domain.flatten = [m, m, m, M, M, M] := by
    rw [hdom]; rfl
  have huni : pyUnique L.domain.flatten = [m, M] := by
    rw [hflat]; exact pyUnique_uniform hmM
  simp only [writeL, WriteLUTArg.effective, attest, huni]
  rw [if_pos h1,
    if_pos (Or.inr (show (LUTNode.threeD L).is3D = true from rfl)),
    if_pos (show ([m, M] : List ℚ).length = 2 from rfl)]
  rw [mapM_fmtRow3 d L.table hrows]
  rfl

/-! ## Reading back the writer's lines -/

theorem last_not_ws_append {a t : List Char} (ht : noWS t) (hne : t ≠ []) :
    ∀ x, (a ++ t).getLast? = some x → isSpace x = false := by
  intro x hx
  rw [List.getLast?_append_of_ne_nil _ hne] at hx
  exact ht x (mem_of_getLast?_eq hx)

theorem stripChars_from_line (f1 f2 : List Char) (h1 : noWS f1)
    (h2 : noWS f2) (hne2 : f2 ≠ []) :
    stripChars ("From ".data ++ f1 ++ ' ' :: f2) =
      "From ".data ++ f1 ++ ' ' :: f2 := by
  refine stripChars_eq_self ?_ ?_
  · intro c hc
    have hh : ("From ".data ++ f1 ++ ' ' :: f2).head? = some 'F' := rfl
    rw [hh] at hc; cases hc; decide
  · have hassoc : "From ".data ++ f1 ++ ' ' :: f2 =
        ("From ".data ++ f1 ++ [' ']) ++ f2 := by simp
    rw [hassoc]
    exact last_not_ws_append h2 hne2

theorem stripChars_length_line (t : List Char) (ht : noWS t)
    (hne : t ≠ []) :
    stripChars ("Length ".data ++ t) = "Length ".data ++ t := by
  refine stripChars_eq_self ?_ ?_
  · intro c hc
    have hh : ("Length ".data ++ t).head? = some 'L' := rfl
    rw [hh] at hc; cases hc; decide
  · exact last_not_ws_append ht hne

theorem stripChars_row3_core (fa fb fc : List Char) {ca : Char}
    {ra : List Char} (ha : fa = ca :: ra) (hnwa : noWS fa) (hnwb : noWS fb)
    (hnwc : noWS fc) (hnec : fc ≠ []) :
    stripChars (fa ++ ' ' :: (fb ++ ' ' :: fc)) =
      fa ++ ' ' :: (fb ++ ' ' :: fc) := by
  refine stripChars_eq_self ?_ ?_
  · intro c hc
    rw [ha] at hc
    cases hc
    exact hnwa ca (ha ▸ List.mem_cons_self ..)
  · have hassoc : fa ++ ' ' :: (fb ++ ' ' :: fc) =
        (fa ++ ' ' :: (fb ++ [' '])) ++ fc := by simp
    rw [hassoc]
    exact last_not_ws_append hnwc hnec

theorem stripChars_comment_line (c : List Char)
    (hcfix : stripChars c = c) (hcne : c ≠ []) :
    stripChars ('#' :: ' ' :: c) = '#' :: ' ' :: c := by
  refine stripChars_eq_self ?_ ?_
  · intro x hx; cases hx; decide
  · have hshape : '#' :: ' ' :: c = ['#', ' '] ++ c := rfl
    rw [hshape]
    intro x hx
    rw [List.getLast?_append_of_ne_nil _ hcne] at hx
    exact (stripChars_fixed_ends hcfix).2 x hx

theorem fmt_headD_ne_hash (d : ℕ) (q : ℚ) :
    ¬((fmtFixedChars d q).headD ' ' = '#') := by
  obtain ⟨c, r, hc, hdig⟩ := fmtFixedChars_head d q
  rw [hc, List.headD_cons]
  rcases hdig with h | rfl
  · exact (isDigit_ne h).2.2.1
  · decide

theorem foldlM_rows1D (d : ℕ) (vs : List ℚ) (st : RState) :
    List.foldlM stepL st (vs.map (fun v => fmtFixedChars d v)) =
      .ok { st with
            data := st.data ++ vs.map (fun v => [fmtFixedChars d v]) } := by
  induction vs generalizing st with
  | nil =>
    rw [List.map_nil, List.foldlM_nil, List.map_nil, List.append_nil]
    rfl
  | cons v vs ih =>
    rw [List.map_cons]
    have hstep : stepL st (fmtFixedChars d v) =
        .ok { st with data := st.data ++ [[fmtFixedChars d v]] } := by
      obtain ⟨c, r, hc, hdig⟩ := fmtFixedChars_head d v
      exact stepL_dataRow st
        (tokensOf_single _ (fmtFixedChars_noWS d v) (fmtFixedChars_ne_nil d v))
        hc hdig (fmt_headD_ne_hash d v)
    rw [foldlM_stepL_cons _ _ hstep, ih, List.append_assoc]
    rfl

theorem foldlM_rows3D (d : ℕ) (rows : List (List ℚ)) (st : RState) :
    List.foldlM stepL st (rows.map (fun r =>
        fmtFixedChars d (r.getD 0 0) ++ ' ' ::
          (fmtFixedChars d (r.getD 1 0) ++ ' ' ::
            fmtFixedChars d (r.getD 2 0)))) =
      .ok { st with
            data := st.data ++ rows.map (fun r =>
              [fmtFixedChars d (r.getD 0 0), fmtFixedChars d (r.getD 1 0),
                fmtFixedChars d (r.getD 2 0)]) } := by
  induction rows generalizing st with
  | nil =>
    rw [List.map_nil, List.foldlM_nil, List.map_nil, List.append_nil]
    rfl
  | cons r rs ih =>
    rw [List.map_cons]
    set fa := fmtFixedChars d (r.getD 0 0) with hfa
    set fb := fmtFixedChars d (r.getD 1 0) with hfb
    set fc := fmtFixedChars d (r.getD 2 0) with hfc
    obtain ⟨c, cr, hc, hdig⟩ := fmtFixedChars_head d (r.getD 0 0)
    have htok : tokensOf (fa ++ ' ' :: (fb ++ ' ' :: fc)) =
        [fa, fb, fc] := by
      rw [tokensOf_append_space _ _ (hfa ▸ fmtFixedChars_noWS d _)
          (hfa ▸ fmtFixedChars_ne_nil d _),
        tokensOf_append_space _ _ (hfb ▸ fmtFixedChars_noWS d _)
          (hfb ▸ fmtFixedChars_ne_nil d _),
        tokensOf_single _ (hfc ▸ fmtFixedChars_noWS d _)
          (hfc ▸ fmtFixedChars_ne_nil d _)]
    have hhd : ¬((fa ++ ' ' :: (fb ++ ' ' :: fc)).headD ' ' = '#') := by
      rw [hfa, hc]
      show ¬((c :: (cr ++ _)).headD ' ' = '#')
      rw [List.headD_cons]
      rcases hdig with h | rfl
      · exact (isDigit_ne h).2.2.1
      · decide
    have hstep : stepL st (fa ++ ' ' :: (fb ++ ' ' :: fc)) =
        .ok { st with data := st.data ++ [[fa, fb, fc]] } :=
      stepL_dataRow st htok (hfa ▸ hc) hdig hhd
    rw [foldlM_stepL_cons _ _ hstep, ih, List.append_assoc]
    rfl

theorem foldlM_comments (cs : List String) (st : RState)
    (hcs : ∀ c ∈ cs, stripChars c.data = c.data) :
    List.foldlM stepL st (cs.map (fun c => '#' :: ' ' :: c.data)) =
      .ok { st with
            comments := st.comments ++ cs.map (fun c => c.data) } := by
  induction cs generalizing st with
  | nil =>
    rw [List.map_nil, List.foldlM_nil, List.map_nil, List.append_nil]
    rfl
  | cons c cs ih =>
    rw [List.map_cons]
    have hstep : stepL st ('#' :: ' ' :: c.data) =
        .ok { st with comments := st.comments ++ [c.data] } := by
      rw [stepL_comment st (' ' :: c.data), stripChars_cons_space,
        hcs c (List.mem_cons_self ..)]
    rw [foldlM_stepL_cons _ _ hstep,
      ih { st with comments := st.comments ++ [c.data] }
        (fun x hx => hcs x (List.mem_cons_of_mem _ hx)),
      List.append_assoc]
    rfl

theorem stepL_comment_any (st : RState) (c : List Char) :
    stepL st (stripChars ('#' :: ' ' :: c)) =
      .ok { st with comments := st.comments ++ [stripChars c] } := by
  rw [stripChars_comment_shape, stepL_comment, stripChars_rdrop,
    stripChars_cons_space]

theorem foldlM_comments_strip (cs : List String) (st : RState) :
    List.foldlM stepL st
      (cs.map (fun c => stripChars ('#' :: ' ' :: c.data))) =
      .ok { st with
        comments := st.comments ++ cs.map (fun c => stripChars c.data) } := by
  induction cs generalizing st with
  | nil =>
    rw [List.map_nil, List.foldlM_nil, List.map_nil, List.append_nil]
    rfl
  | cons c cs ih =>
    rw [List.map_cons,
      foldlM_stepL_cons _ _ (stepL_comment_any st c.data),
      ih { st with comments := st.comments ++ [stripChars c.data] },
      List.map_cons, List.append_assoc]
    rfl

theorem natToDec_noWS (n : ℕ) : noWS (natToDec n) := fun c hc =>
  isDigit_not_ws (natToDec_isDigit n c hc)

theorem map_data_map_mk (ls : List (List Char)) :
    (ls.map String.mk).map String.data = ls := by
  rw [List.map_map]
  exact List.map_id'' (fun _ => rfl) ls

theorem map_mk_map_data (cs : List String) :
    (cs.map (fun c => String.data c)).map String.mk = cs := by
  rw [List.map_map]
  exact List.map_id'' (fun _ => rfl) cs

theorem foldlM_stepL_append {l1 : List (List Char)} (l2 : List (List Char))
    {st st' : RState} (h : List.foldlM stepL st l1 = .ok st') :
    List.foldlM stepL st (l1 ++ l2) = List.foldlM stepL st' l2 := by
  rw [List.foldlM_append, h]
  rfl

theorem forall₂_parse_fmt (d : ℕ) (l : List ℚ) :
    List.Forall₂ (fun t v => parseRatChars t = some v)
      (l.map (fun v => fmtFixedChars d v)) (l.map (rndAt d)) := by
  induction l with
  | nil => exact .nil
  | cons v vs ih => exact .cons (parseRatChars_fmtFixedChars d v) ih

/-- The writer's 1D output, stripped and filtered as the reader prepares
it. -/
theorem prepared_write1D (L : LUT1D) (d : ℕ) :
    ((["Version 1".data,
        "From ".data ++ fmtFixedChars d (L.domain.getD 0 0) ++
          ' ' :: fmtFixedChars d (L.domain.getD 1 0),
        "Length ".data ++ natToDec L.table.length,
        "Components 1".data,
        ['\x7b']] ++ L.table.map (fun v => ' ' :: fmtFixedChars d v) ++
        [['\x7d']] ++ L.comments.map (fun c => '#' :: ' ' :: c.data)).map
          stripChars).filter (fun l => l ≠ []) =
      "Version 1".data ::
        ("From ".data ++ fmtFixedChars d (L.domain.getD 0 0) ++
          ' ' :: fmtFixedChars d (L.domain.getD 1 0)) ::
        ("Length ".data ++ natToDec L.table.length) ::
        "Components 1".data :: ['\x7b'] ::
        (L.table.map (fun v => fmtFixedChars d v) ++
          ['\x7d'] :: L.comments.map
            (fun c => stripChars ('#' :: ' ' :: c.data))) := by
  have hmap : (["Version 1".data,
        "From ".data ++ fmtFixedChars d (L.domain.getD 0 0) ++
          ' ' :: fmtFixedChars d (L.domain.getD 1 0),
        "Length ".data ++ natToDec L.table.length,
        "Components 1".data,
        ['\x7b']] ++ L.table.map (fun v => ' ' :: fmtFixedChars d v) ++
        [['\x7d']] ++ L.comments.map (fun c => '#' :: ' ' :: c.data)).map
          stripChars =
      ["Version 1".data,
        "From ".data ++ fmtFixedChars d (L.domain.getD 0 0) ++
          ' ' :: fmtFixedChars d (L.domain.getD 1 0),
        "Length ".data ++ natToDec L.table.length,
        "Components 1".data,
        ['\x7b']] ++ L.table.map (fun v => fmtFixedChars d v) ++
        [['\x7d']] ++ L.comments.map
          (fun c => stripChars ('#' :: ' ' :: c.data)) := by
    simp only [List.map_append, List.map_cons, List.map_nil, List.map_map]
    have hrows : List.map (stripChars ∘ fun v => ' ' :: fmtFixedChars d v)
        L.table = List.map (fun v => fmtFixedChars d v) L.table :=
      List.map_congr_left (fun v _ => by
        simp only [Function.comp_apply]
        rw [stripChars_cons_space,
          stripChars_of_noWS (fmtFixedChars_noWS d v)])
    have hcomms : List.map (stripChars ∘ fun c => '#' :: ' ' :: c.data)
        L.comments = List.map (fun c => stripChars ('#' :: ' ' :: c.data))
          L.comments := rfl
    rw [hrows, hcomms,
      show stripChars ("Version 1".data) = "Version 1".data from by decide,
      stripChars_from_line _ _ (fmtFixedChars_noWS d _)
        (fmtFixedChars_noWS d _) (fmtFixedChars_ne_nil d _),
      stripChars_length_line _ (natToDec_noWS _) (natToDec_ne_nil _),
      show stripChars ("Components 1".data) = "Components 1".data from
        by decide,
      show stripChars ['\x7b'] = ['\x7b'] from by decide,
      show stripChars ['\x7d'] = ['\x7d'] from by decide]
  rw [hmap]
  have hfilter : ∀ a ∈ ["Version 1".data,
      "From ".data ++ fmtFixedChars d (L.domain.getD 0 0) ++
        ' ' :: fmtFixedChars d (L.domain.getD 1 0),
      "Length ".data ++ natToDec L.table.length,
      "Components 1".data,
      ['\x7b']] ++ L.table.map (fun v => fmtFixedChars d v) ++
      [['\x7d']] ++ L.comments.map
        (fun c => stripChars ('#' :: ' ' :: c.data)),
      (fun l => decide (l ≠ [])) a = true := by
    intro a ha
    have hane : a ≠ [] := by
      simp only [List.mem_append, List.mem_cons, List.not_mem_nil, or_false,
        List.mem_map, List.mem_singleton] at ha
      rcases ha with (((rfl | rfl | rfl | rfl | rfl) | ⟨v, _, rfl⟩) | rfl) |
        ⟨c, _, rfl⟩
      · decide
      · simp
      · simp
      · decide
      · decide
      · exact fmtFixedChars_ne_nil d v
      · decide
      · rw [stripChars_comment_shape]
        simp
    simpa using hane
  rw [List.filter_eq_self.mpr hfilter]
  simp [List.cons_append, List.nil_append, List.append_assoc]

/-- Full 1D round trip: writing a valid implicit-domain LUT1D and reading
the produced lines back yields the LUT with every numeric value rounded
at the chosen precision and every comment replaced by its stripped
form. -/
theorem roundtrip1D (L : LUT1D) (d : ℕ) (title : String)
    (hv : L.validB = true) (hdom2 : L.domain.length = 2)
    (hord : rndScaled d (L.domain.getD 0 0) <
      rndScaled d (L.domain.getD 1 0)) :
    ∃ file, write_LUT_SonySPI1D (.single (.oneD L)) d = .ok file ∧
      read_LUT_SonySPI1D title file =
        .ok (.inl ⟨L.table.map (rndAt d), title,
          [rndAt d (L.domain.getD 0 0), rndAt d (L.domain.getD 1 0)],
          L.comments.map (fun c => String.mk (stripChars c.data))⟩) := by
  have hw := writeL_oneD L d hdom2
  have hlen : 2 ≤ L.table.length := by
    simp only [LUT1D.validB, Bool.and_eq_true, decide_eq_true_eq] at hv
    exact hv.1
  refine ⟨_, by rw [write_LUT_SonySPI1D, hw]; rfl, ?_⟩
  rw [read_LUT_SonySPI1D, map_data_map_mk, readL,
    prepared_write1D L d]
  rw [foldlM_stepL_cons _ _ (stepL_version {}),
    foldlM_stepL_cons _ _ (stepL_from {}
      (parseRatChars_fmtFixedChars d (L.domain.getD 0 0))
      (parseRatChars_fmtFixedChars d (L.domain.getD 1 0))
      (fmtFixedChars_noWS d _) (fmtFixedChars_noWS d _)
      (fmtFixedChars_ne_nil d _) (fmtFixedChars_ne_nil d _)),
    foldlM_stepL_cons _ _ (stepL_length _ (natToDec_noWS _)
      (natToDec_ne_nil _)),
    foldlM_stepL_cons _ _ (stepL_components1 _),
    foldlM_stepL_cons _ _ (stepL_braceOpen _),
    foldlM_stepL_append _ (foldlM_rows1D d L.table _),
    foldlM_stepL_cons _ _ (stepL_braceClose _),
    foldlM_comments_strip L.comments _]
  have hb := buildLUT_single_tokens title
    (rndAt d (L.domain.getD 0 0)) (rndAt d (L.domain.getD 1 0))
    (L.table.map (fun v => fmtFixedChars d v)) (L.table.map (rndAt d))
    (L.comments.map (fun c => stripChars c.data))
    (by simpa using hlen)
    (by
      rw [rndAt, rndAt, div_lt_div_iff_of_pos_right (by positivity)]
      exact_mod_cast hord)
    (forall₂_parse_fmt d L.table)
  rw [List.map_map] at hb
  have hcomm2 : (L.comments.map (fun c => stripChars c.data)).map
      String.mk =
      L.comments.map (fun c => String.mk (stripChars c.data)) := by
    rw [List.map_map]
    exact List.map_congr_left (fun c _ => rfl)
  rw [hcomm2] at hb
  show buildLUT title _ = _
  rw [← hb]
  rfl

/-! ## The 3x1D round trip -/

theorem mapM_parse_row3 (d : ℕ) (r : List ℚ) (h3 : r.length = 3) :
    [fmtFixedChars d (r.getD 0 0), fmtFixedChars d (r.getD 1 0),
      fmtFixedChars d (r.getD 2 0)].mapM parseRatChars =
      some (r.map (rndAt d)) := by
  obtain ⟨a, b, c, rfl⟩ : ∃ a b c, r = [a, b, c] := by
    match r, h3 with
    | [a, b, c], _ => exact ⟨a, b, c, rfl⟩
  rw [List.mapM_cons, parseRatChars_fmtFixedChars,
    List.mapM_cons, parseRatChars_fmtFixedChars,
    List.mapM_cons, parseRatChars_fmtFixedChars, List.mapM_nil]
  rfl

theorem mapM_triple_tokens (d : ℕ) {rows : List (List ℚ)}
    (h3 : ∀ r ∈ rows, r.length = 3) :
    (rows.map (fun r => [fmtFixedChars d (r.getD 0 0),
        fmtFixedChars d (r.getD 1 0), fmtFixedChars d (r.getD 2 0)])).mapM
      (fun r => r.mapM parseRatChars) =
      some (rows.map (fun r => r.map (rndAt d))) := by
  induction rows with
  | nil => rfl
  | cons r rs ih =>
    rw [List.map_cons, List.mapM_cons,
      mapM_parse_row3 d r (h3 r (List.mem_cons_self ..)),
      ih (fun x hx => h3 x (List.mem_cons_of_mem _ hx))]
    rfl

theorem buildLUT_triple_tokens (title : String) (d : ℕ) (dm dM : ℚ)
    (rows : List (List ℚ)) (comments : List (List Char))
    (hlen : 2 ≤ rows.length) (h3 : ∀ r ∈ rows, r.length = 3) :
    buildLUT title { domainMin := dm
                     domainMax := dM
                     dimensions := 2
                     data := rows.map (fun r =>
                       [fmtFixedChars d (r.getD 0 0),
                        fmtFixedChars d (r.getD 1 0),
                        fmtFixedChars d (r.getD 2 0)])
                     comments := comments } =
      .ok (.inr ⟨rows.map (fun r => r.map (rndAt d)), title,
        [[dm, dm, dm], [dM, dM, dM]], comments.map String.mk⟩) := by
  have hlen3 : ∀ x ∈ rows.map (fun r => r.map (rndAt d)), x.length = 3 := by
    intro x hx
    obtain ⟨r, hr, rfl⟩ := List.mem_map.mp hx
    simp [h3 r hr]
  have hrows : asFloatArrayRows (rows.map (fun r =>
      [fmtFixedChars d (r.getD 0 0), fmtFixedChars d (r.getD 1 0),
       fmtFixedChars d (r.getD 2 0)])) =
      .ok (rows.map (fun r => r.map (rndAt d))) := by
    simp only [asFloatArrayRows]
    rw [mapM_triple_tokens d h3]
    simp only [Option.isNone_some, Bool.false_eq_true, if_false,
      Option.getD_some]
    rw [if_pos]
    rw [List.all_eq_true]
    intro x hx
    have hx3 := hlen3 x (List.mem_of_mem_tail hx)
    cases hv : rows.map (fun r => r.map (rndAt d)) with
    | nil => rw [hv] at hx; simp at hx
    | cons y ys =>
      have hy : y.length = 3 := hlen3 y (hv ▸ List.mem_cons_self ..)
      simp [hx3, hy]
  have hval : (⟨rows.map (fun r => r.map (rndAt d)), title,
      [[dm, dm, dm], [dM, dM, dM]], comments.map String.mk⟩ :
      LUT3x1D).validB = true := by
    simp only [LUT3x1D.validB, Bool.and_eq_true, decide_eq_true_eq,
      List.all_eq_true]
    exact ⟨by simpa using hlen, fun x hx => by simp [hlen3 x hx]⟩
  rw [buildLUT, hrows]
  show (mkLUT3x1D (rows.map (fun r => r.map (rndAt d))) title
      [[dm, dm, dm], [dM, dM, dM]] (comments.map String.mk)).bind _ = _
  rw [mkLUT3x1D]
  simp only [if_pos hval]
  rfl

theorem prepared_write3D (L : LUT3x1D) (d : ℕ) {m M : ℚ} :
    ((["Version 1".data,
        "From ".data ++ fmtFixedChars d m ++ ' ' :: fmtFixedChars d M,
        "Length ".data ++ natToDec L.table.length,
        "Components 3".data,
        ['\x7b']] ++ L.table.map (fun r =>
          ' ' :: fmtFixedChars d (r.getD 0 0) ++
          ' ' :: fmtFixedChars d (r.getD 1 0) ++
          ' ' :: fmtFixedChars d (r.getD 2 0)) ++
        [['\x7d']] ++ L.comments.map (fun c => '#' :: ' ' :: c.data)).map
          stripChars).filter (fun l => l ≠ []) =
      "Version 1".data ::
        ("From ".data ++ fmtFixedChars d m ++ ' ' :: fmtFixedChars d M) ::
        ("Length ".data ++ natToDec L.table.length) ::
        "Components 3".data :: ['\x7b'] ::
        (L.table.map (fun r =>
          fmtFixedChars d (r.getD 0 0) ++ ' ' ::
            (fmtFixedChars d (r.getD 1 0) ++ ' ' ::
              fmtFixedChars d (r.getD 2 0))) ++
          ['\x7d'] :: L.comments.map
            (fun c => stripChars ('#' :: ' ' :: c.data))) := by
  have hrowshape : ∀ r : List ℚ,
      ' ' :: fmtFixedChars d (r.getD 0 0) ++
        ' ' :: fmtFixedChars d (r.getD 1 0) ++
        ' ' :: fmtFixedChars d (r.getD 2 0) =
      ' ' :: (fmtFixedChars d (r.getD 0 0) ++ ' ' ::
        (fmtFixedChars d (r.getD 1 0) ++ ' ' ::
          fmtFixedChars d (r.getD 2 0))) := by
    intro r
    simp [List.append_assoc]
  have hmap : ((["Version 1".data,
        "From ".data ++ fmtFixedChars d m ++ ' ' :: fmtFixedChars d M,
        "Length ".data ++ natToDec L.table.length,
        "Components 3".data,
        ['\x7b']] ++ L.table.map (fun r =>
          ' ' :: fmtFixedChars d (r.getD 0 0) ++
          ' ' :: fmtFixedChars d (r.getD 1 0) ++
          ' ' :: fmtFixedChars d (r.getD 2 0)) ++
        [['\x7d']] ++ L.comments.map (fun c => '#' :: ' ' :: c.data)).map
          stripChars) =
      ["Version 1".data,
        "From ".data ++ fmtFixedChars d m ++ ' ' :: fmtFixedChars d M,
        "Length ".data ++ natToDec L.table.length,
        "Components 3".data,
        ['\x7b']] ++ L.table.map (fun r =>
          fmtFixedChars d (r.getD 0 0) ++ ' ' ::
            (fmtFixedChars d (r.getD 1 0) ++ ' ' ::
              fmtFixedChars d (r.getD 2 0))) ++
        [['\x7d']] ++ L.comments.map
          (fun c => stripChars ('#' :: ' ' :: c.data)) := by
    simp only [List.map_append, List.map_cons, List.map_nil, List.map_map]
    have hrows : List.map (stripChars ∘ fun r =>
        ' ' :: fmtFixedChars d (r.getD 0 0) ++
        ' ' :: fmtFixedChars d (r.getD 1 0) ++
        ' ' :: fmtFixedChars d (r.getD 2 0)) L.table =
        List.map (fun r =>
          fmtFixedChars d (r.getD 0 0) ++ ' ' ::
            (fmtFixedChars d (r.getD 1 0) ++ ' ' ::
              fmtFixedChars d (r.getD 2 0))) L.table :=
      List.map_congr_left (fun r _ => by
        simp only [Function.comp_apply]
        rw [hrowshape r, stripChars_cons_space]
        obtain ⟨c, cr, hc, hdig⟩ := fmtFixedChars_head d (r.getD 0 0)
        exact stripChars_row3_core _ _ _ hc (fmtFixedChars_noWS d _)
          (fmtFixedChars_noWS d _) (fmtFixedChars_noWS d _)
          (fmtFixedChars_ne_nil d _))
    have hcomms : List.map (stripChars ∘ fun c => '#' :: ' ' :: c.data)
        L.comments = List.map (fun c => stripChars ('#' :: ' ' :: c.data))
          L.comments := rfl
    rw [hrows, hcomms,
      show stripChars ("Version 1".data) = "Version 1".data from by decide,
      stripChars_from_line _ _ (fmtFixedChars_noWS d _)
        (fmtFixedChars_noWS d _) (fmtFixedChars_ne_nil d _),
      stripChars_length_line _ (natToDec_noWS _) (natToDec_ne_nil _),
      show stripChars ("Components 3".data) = "Components 3".data from
        by decide,
      show stripChars ['\x7b'] = ['\x7b'] from by decide,
      show stripChars ['\x7d'] = ['\x7d'] from by decide]
  rw [hmap]
  have hfilter : ∀ a ∈ ["Version 1".data,
      "From ".data ++ fmtFixedChars d m ++ ' ' :: fmtFixedChars d M,
      "Length ".data ++ natToDec L.table.length,
      "Components 3".data,
      ['\x7b']] ++ L.table.map (fun r =>
        fmtFixedChars d (r.getD 0 0) ++ ' ' ::
          (fmtFixedChars d (r.getD 1 0) ++ ' ' ::
            fmtFixedChars d (r.getD 2 0))) ++
      [['\x7d']] ++ L.comments.map
        (fun c => stripChars ('#' :: ' ' :: c.data)),
      (fun l => decide (l ≠ [])) a = true := by
    intro a ha
    have hane : a ≠ [] := by
      simp only [List.mem_append, List.mem_cons, List.not_mem_nil, or_false,
        List.mem_map, List.mem_singleton] at ha
      rcases ha with (((rfl | rfl | rfl | rfl | rfl) | ⟨r, _, rfl⟩) | rfl) |
        ⟨c, _, rfl⟩
      · decide
      · simp
      · simp
      · decide
      · decide
      · intro hcon
        exact fmtFixedChars_ne_nil d (r.getD 0 0)
          (List.append_eq_nil.mp hcon).1
      · decide
      · rw [stripChars_comment_shape]
        simp
    simpa using hane
  rw [List.filter_eq_self.mpr hfilter]
  simp [List.cons_append, List.nil_append, List.append_assoc]

/-- Full 3x1D round trip. -/
theorem roundtrip3D (L : LUT3x1D) (d : ℕ) (title : String) {m M : ℚ}
    (hv : L.validB = true) (hdom : L.domain = [[m, m, m], [M, M, M]])
    (hmM : m < M) :
    ∃ file, write_LUT_SonySPI1D (.single (.threeD L)) d = .ok file ∧
      read_LUT_SonySPI1D title file =
        .ok (.inr ⟨L.table.map (fun r => r.map (rndAt d)), title,
          [[rndAt d m, rndAt d m, rndAt d m],
           [rndAt d M, rndAt d M, rndAt d M]],
          L.comments.map (fun c => String.mk (stripChars c.data))⟩) := by
  have h3 : ∀ r ∈ L.table, r.length = 3 := by
    simp only [LUT3x1D.validB, Bool.and_eq_true, decide_eq_true_eq,
      List.all_eq_true] at hv
    intro r hr
    simpa using hv.2 r hr
  have hlen : 2 ≤ L.table.length := by
    simp only [LUT3x1D.validB, Bool.and_eq_true, decide_eq_true_eq] at hv
    exact hv.1
  have hw := writeL_threeD L d hdom hmM h3
  refine ⟨_, by rw [write_LUT_SonySPI1D, hw]; rfl, ?_⟩
  rw [read_LUT_SonySPI1D, map_data_map_mk, readL,
    prepared_write3D L d]
  rw [foldlM_stepL_cons _ _ (stepL_version {}),
    foldlM_stepL_cons _ _ (stepL_from {}
      (parseRatChars_fmtFixedChars d m) (parseRatChars_fmtFixedChars d M)
      (fmtFixedChars_noWS d _) (fmtFixedChars_noWS d _)
      (fmtFixedChars_ne_nil d _) (fmtFixedChars_ne_nil d _)),
    foldlM_stepL_cons _ _ (stepL_length _ (natToDec_noWS _)
      (natToDec_ne_nil _)),
    foldlM_stepL_cons _ _ (stepL_components3 _),
    foldlM_stepL_cons _ _ (stepL_braceOpen _),
    foldlM_stepL_append _ (foldlM_rows3D d L.table _),
    foldlM_stepL_cons _ _ (stepL_braceClose _),
    foldlM_comments_strip L.comments _]
  have hb := buildLUT_triple_tokens title d (rndAt d m) (rndAt d M)
    L.table (L.comments.map (fun c => stripChars c.data)) hlen h3
  have hcomm3 : (L.comments.map (fun c => stripChars c.data)).map
      String.mk =
      L.comments.map (fun c => String.mk (stripChars c.data)) := by
    rw [List.map_map]
    exact List.map_congr_left (fun c _ => rfl)
  rw [hcomm3] at hb
  show buildLUT title _ = _
  rw [← hb]
  rfl

/-! ## Round-trip accuracy: exactness and tolerance lemmas -/

theorem rndScaled_exact (d : ℕ) (q : ℚ) (n : ℤ) (h : q * 10 ^ d = n) :
    rndScaled d q = n := by
  rw [rndScaled, h]
  exact Int.floor_eq_iff.mpr (by constructor <;> norm_num)

theorem rndAt_exact (d : ℕ) (q : ℚ) (n : ℤ) (h : q * 10 ^ d = n) :
    rndAt d q = q := by
  rw [rndAt, rndScaled_exact d q n h, ← h]
  rw [mul_div_assoc, div_self (by positivity : (10 : ℚ) ^ d ≠ 0), mul_one]

theorem rndScaled_third : rndScaled 7 (1 / 3 : ℚ) = 3333333 := by
  rw [rndScaled]
  exact Int.floor_eq_iff.mpr (by constructor <;> norm_num)

theorem forall₂_rnd_close (d : ℕ) (l : List ℚ) :
    List.Forall₂ (fun a b => |a - b| ≤ 1 / (2 * 10 ^ d))
      (l.map (rndAt d)) l := by
  rw [List.forall₂_map_left_iff]
  exact List.forall₂_same.mpr (fun x _ => rndAt_close d x)

theorem forall₂_rnd_close_rows (d : ℕ) (l : List (List ℚ)) :
    List.Forall₂ (List.Forall₂ (fun a b => |a - b| ≤ 1 / (2 * 10 ^ d)))
      (l.map (fun r => r.map (rndAt d))) l := by
  rw [List.forall₂_map_left_iff]
  exact List.forall₂_same.mpr (fun r _ => forall₂_rnd_close d r)

/-- C1 counterexample: a LUT1D with the implicit uniform domain
`[1/3, 1]`, written at 7 decimals, does not read back with the same
domain — the file stores the rounded `0.3333333`, so the read-back LUT
is not the original one. -/
theorem spi1d_roundtrip_counterexample :
    ∃ file,
      write_LUT_SonySPI1D
        (.single (.oneD ⟨[0, 1], "t", [1 / 3, 1], []⟩)) 7 = .ok file ∧
      read_LUT_SonySPI1D "t" file ≠
        .ok (.inl ⟨[0, 1], "t", [1 / 3, 1], []⟩) := by
  have hv : (⟨[0, 1], "t", [1 / 3, 1], []⟩ : LUT1D).validB = true := by
    norm_num [LUT1D.validB]
  have hord : rndScaled 7
      ((⟨[0, 1], "t", [1 / 3, 1], []⟩ : LUT1D).domain.getD 0 0) <
      rndScaled 7
        ((⟨[0, 1], "t", [1 / 3, 1], []⟩ : LUT1D).domain.getD 1 0) := by
    show rndScaled 7 (1 / 3 : ℚ) < rndScaled 7 (1 : ℚ)
    rw [rndScaled_third, rndScaled_exact 7 1 (10 ^ 7) (by norm_num)]
    norm_num
  obtain ⟨file, hw, hr⟩ :=
    roundtrip1D ⟨[0, 1], "t", [1 / 3, 1], []⟩ 7 "t" hv rfl hord
  refine ⟨file, hw, ?_⟩
  rw [hr]
  intro hcon
  have h13 : rndAt 7 (1 / 3 : ℚ) = 1 / 3 :=
    congrArg (fun e : Except String ReadLUT =>
      (match e with
       | .ok (.inl L) => L.domain.getD 0 0
       | _ => 0)) hcon
  rw [rndAt, rndScaled_third] at h13
  norm_num at h13

/-- C1 (amended): writing a LUT1D (implicit ordered 2-point domain whose
endpoints stay distinct after rounding) or a LUT3x1D (implicit uniform
domain) at `d` decimals and reading the file back yields a LUT of the
same kind whose table AND domain agree with the original entrywise
within the half-ulp tolerance `1/(2*10^d)` of the configured decimal
precision, and with the comments reproduced in order, each comment coming
back as its Python-strip image (so an already-stripped comment, including
the empty one, is reproduced verbatim, while surrounding whitespace in a
comment is dropped by the reader). The original claim's "the same domain"
is false: the domain is only reproduced to the decimal tolerance (see the
counterexample). -/
theorem spi1d_write_read_roundtrip :
    (∀ (L : LUT1D) (d : ℕ) (title : String),
      L.validB = true → L.domain.length = 2 →
      rndScaled d (L.domain.getD 0 0) < rndScaled d (L.domain.getD 1 0) →
      ∃ file L1, write_LUT_SonySPI1D (.single (.oneD L)) d = .ok file ∧
        read_LUT_SonySPI1D title file = .ok (.inl L1) ∧
        List.Forall₂ (fun a b => |a - b| ≤ 1 / (2 * 10 ^ d))
          L1.table L.table ∧
        List.Forall₂ (fun a b => |a - b| ≤ 1 / (2 * 10 ^ d))
          L1.domain L.domain ∧
        L1.comments =
          L.comments.map (fun c => String.mk (stripChars c.data)) ∧
        L1.name = title) ∧
    (∀ (L : LUT3x1D) (d : ℕ) (title : String) (m M : ℚ),
      L.validB = true → L.domain = [[m, m, m], [M, M, M]] → m < M →
      ∃ file L3, write_LUT_SonySPI1D (.single (.threeD L)) d = .ok file ∧
        read_LUT_SonySPI1D title file = .ok (.inr L3) ∧
        List.Forall₂ (List.Forall₂ (fun a b => |a - b| ≤ 1 / (2 * 10 ^ d)))
          L3.table L.table ∧
        List.Forall₂ (List.Forall₂ (fun a b => |a - b| ≤ 1 / (2 * 10 ^ d)))
          L3.domain L.domain ∧
        L3.comments =
          L.comments.map (fun c => String.mk (stripChars c.data)) ∧
        L3.name = title) := by
  constructor
  · intro L d title hv hdom2 hord
    obtain ⟨file, hw, hr⟩ := roundtrip1D L d title hv hdom2 hord
    refine ⟨file, _, hw, hr, forall₂_rnd_close d L.table, ?_, rfl, rfl⟩
    obtain ⟨a, b, hab⟩ := List.length_eq_two.mp hdom2
    rw [hab]
    simp only [List.getD_cons_zero, List.getD_cons_succ]
    exact .cons (rndAt_close d a) (.cons (rndAt_close d b) .nil)
  · intro L d title m M hv hdom hmM
    obtain ⟨file, hw, hr⟩ := roundtrip3D L d title hv hdom hmM
    refine ⟨file, _, hw, hr, forall₂_rnd_close_rows d L.table, ?_, rfl, rfl⟩
    rw [hdom]
    have hm := rndAt_close d m
    have hM := rndAt_close d M
    exact .cons (.cons hm (.cons hm (.cons hm .nil)))
      (.cons (.cons hM (.cons hM (.cons hM .nil))) .nil)

/-- Witness for the amended C1 round trip at a concrete 1D LUT. -/
theorem spi1d_write_read_roundtrip_witness :
    ∃ file L1,
      write_LUT_SonySPI1D (.single (.oneD ⟨[0, 1], "w", [0, 1], []⟩)) 2 =
        .ok file ∧
      read_LUT_SonySPI1D "w" file = .ok (.inl L1) ∧
      List.Forall₂ (fun a b => |a - b| ≤ 1 / (2 * 10 ^ 2))
        L1.table ([0, 1] : List ℚ) ∧
      List.Forall₂ (fun a b => |a - b| ≤ 1 / (2 * 10 ^ 2))
        L1.domain ([0, 1] : List ℚ) ∧
      L1.comments = [] ∧ L1.name = "w" := by
  exact spi1d_write_read_roundtrip.1 ⟨[0, 1], "w", [0, 1], []⟩ 2 "w"
    (by norm_num [LUT1D.validB])
    rfl
    (by
      show rndScaled 2 (0 : ℚ) < rndScaled 2 (1 : ℚ)
      rw [rndScaled_exact 2 0 0 (by norm_num),
        rndScaled_exact 2 1 100 (by norm_num)]
      norm_num)

/-! ## Reader defaults: no From line, no Components line -/

theorem numToken4_ne_keywords {l : List Char} {c : Char} {r : List Char}
    (hl : l = c :: r)
    (hc : c.isDigit = true ∨ c = '-' ∨ c = '+' ∨ c = '.') :
    l ≠ "Version".data ∧ l ≠ "From".data ∧ l ≠ "Length".data ∧
      l ≠ "Components".data ∧ l ≠ ['\x7b'] ∧ l ≠ ['\x7d'] := by
  subst hl
  have hne : c ≠ 'V' ∧ c ≠ 'F' ∧ c ≠ 'L' ∧ c ≠ 'C' ∧
      c ≠ '\x7b' ∧ c ≠ '\x7d' := by
    rcases hc with h | rfl | rfl | rfl
    · refine ⟨?_, ?_, ?_, ?_, ?_, ?_⟩ <;> rintro rfl <;>
        exact absurd h (by decide)
    · exact ⟨by decide, by decide, by decide, by decide, by decide,
        by decide⟩
    · exact ⟨by decide, by decide, by decide, by decide, by decide,
        by decide⟩
    · exact ⟨by decide, by decide, by decide, by decide, by decide,
        by decide⟩
  obtain ⟨h1, h2, h3, h4, h5, h6⟩ := hne
  refine ⟨?_, ?_, ?_, ?_, ?_, ?_⟩ <;> intro he
  · exact h1 (by
      rw [show ("Version".data) = 'V' :: "ersion".data from rfl,
        List.cons_eq_cons] at he
      exact he.1)
  · exact h2 (by
      rw [show ("From".data) = 'F' :: "rom".data from rfl,
        List.cons_eq_cons] at he
      exact he.1)
  · exact h3 (by
      rw [show ("Length".data) = 'L' :: "ength".data from rfl,
        List.cons_eq_cons] at he
      exact he.1)
  · exact h4 (by
      rw [show ("Components".data) = 'C' :: "omponents".data from rfl,
        List.cons_eq_cons] at he
      exact he.1)
  · exact h5 (by rw [List.cons_eq_cons] at he; exact he.1)
  · exact h6 (by rw [List.cons_eq_cons] at he; exact he.1)

theorem stepL_numRow (st : RState) {l : List Char} {c : Char}
    {r : List Char} (hl : l = c :: r) (hws : noWS l)
    (hc : c.isDigit = true ∨ c = '-' ∨ c = '+' ∨ c = '.') :
    stepL st l = .ok { st with data := st.data ++ [[l]] } := by
  have hhd : ¬(l.headD ' ' = '#') := by
    intro he
    rw [hl, List.headD_cons] at he
    subst he
    rcases hc with h | h | h | h <;> exact absurd h (by decide)
  have htok : tokensOf l = l :: [] :=
    tokensOf_single l hws (by rw [hl]; exact List.cons_ne_nil c r)
  obtain ⟨k1, k2, k3, k4, k5, k6⟩ := numToken4_ne_keywords hl hc
  simp only [stepL]
  rw [htok]
  simp only [List.isEmpty_cons, List.headD_cons, List.tail_cons]
  rw [if_neg hhd, if_neg (by simp : ¬((false : Bool) = true)),
    if_neg k1, if_neg k2, if_neg k3, if_neg k4,
    if_neg (not_or.mpr ⟨k5, k6⟩)]

theorem foldlM_numRows (toks : List (List Char)) (st : RState)
    (hrow : ∀ t ∈ toks, noWS t ∧ t ≠ [] ∧
      ((t.headD ' ').isDigit = true ∨ t.headD ' ' = '-' ∨
        t.headD ' ' = '+' ∨ t.headD ' ' = '.')) :
    List.foldlM stepL st toks =
      .ok { st with data := st.data ++ toks.map (fun t => [t]) } := by
  induction toks generalizing st with
  | nil =>
    rw [List.foldlM_nil, List.map_nil, List.append_nil]
    rfl
  | cons t ts ih =>
    obtain ⟨hws, hne, hhd⟩ := hrow t (List.mem_cons_self ..)
    obtain ⟨c, r, hcr⟩ := List.exists_cons_of_ne_nil hne
    rw [hcr, List.headD_cons] at hhd
    have hstep : stepL st t = .ok { st with data := st.data ++ [[t]] } :=
      stepL_numRow st hcr hws hhd
    rw [foldlM_stepL_cons _ _ hstep,
      ih { st with data := st.data ++ [[t]] }
        (fun x hx => hrow x (List.mem_cons_of_mem _ hx)),
      List.map_cons, List.append_assoc]
    rfl

theorem parse_token_05 : parseRatChars "0.5".data = some (1 / 2 : ℚ) := by
  rw [parseRatChars_pos (show "0.5".data = '0' :: ".5".data from rfl)
      (by decide) (by decide),
    show "0.5".data = ['0'] ++ '.' :: ['5'] from rfl,
    parseUnsigned_split _ _ (by decide) (by decide) (by decide)]
  rw [show digitsVal ['0'] = 0 from rfl, show digitsVal ['5'] = 5 from rfl]
  norm_num

theorem parse_token_025 :
    parseRatChars "0.25".data = some (1 / 4 : ℚ) := by
  rw [parseRatChars_pos (show "0.25".data = '0' :: ".25".data from rfl)
      (by decide) (by decide),
    show "0.25".data = ['0'] ++ '.' :: ['2', '5'] from rfl,
    parseUnsigned_split _ _ (by decide) (by decide) (by decide)]
  rw [show digitsVal ['0'] = 0 from rfl,
    show digitsVal ['2', '5'] = 25 from rfl]
  norm_num

/-- C10 counterexample: a file holding the single numeric row `0.5`, with
no `From` line and no `Components` line, does not yield a LUT — the
one-sample table fails the LUT1D minimum-size validation, so the read
fails. -/
theorem spi1d_read_defaults_counterexample :
    read_LUT_SonySPI1D "t" ["0.5"] = .error "ValidationError" := by
  have hp : parseRatChars ['0', '.', '5'] = some (1 / 2 : ℚ) :=
    parse_token_05
  have hrows : asFloatArrayRows [["0.5".data]] = .ok [[(1 / 2 : ℚ)]] := by
    simp only [asFloatArrayRows, List.mapM_cons, List.mapM_nil,
      parse_token_05, hp, Option.pure_def, Option.bind_some]
    rfl
  have hbuild : buildLUT "t" { domainMin := 0
                               domainMax := 1
                               dimensions := 1
                               data := [["0.5".data]]
                               comments := [] } =
      .error "ValidationError" := by
    rw [buildLUT, hrows]
    rfl
  have hstep : stepL {} ("0.5".data) =
      .ok { ({} : RState) with
            data := ({} : RState).data ++ [["0.5".data]] } :=
    stepL_dataRow {}
      (show tokensOf "0.5".data = "0.5".data :: [] from by decide)
      rfl (Or.inl (by decide)) (by decide)
  rw [read_LUT_SonySPI1D, readL]
  rw [show ((["0.5"].map String.data).map stripChars).filter
      (fun l => l ≠ []) = ["0.5".data] from by decide]
  rw [List.foldlM_cons, hstep]
  exact hbuild

/-- C10 (amended): a file with no `From` line and no `Components` line is
read with the defaults — domain `[0, 1]`, one component. For any file
whose lines are arbitrary single-token numeric rows (each line one
whitespace-free token whose first character is a digit, `-`, `+` or `.`,
parsing to a rational), provided there are at least two of them, the
result is a LUT1D over domain `[0, 1]` whose table is exactly the parsed
row values (a file with fewer than two rows instead fails the LUT1D
minimum-size validation, see the counterexample). -/
theorem spi1d_read_defaults (title : String) (toks : List (List Char))
    (vals : List ℚ)
    (hparse : List.Forall₂ (fun t v => parseRatChars t = some v)
      toks vals)
    (hlen : 2 ≤ vals.length)
    (hrow : ∀ t ∈ toks, noWS t ∧ t ≠ [] ∧
      ((t.headD ' ').isDigit = true ∨ t.headD ' ' = '-' ∨
        t.headD ' ' = '+' ∨ t.headD ' ' = '.')) :
    read_LUT_SonySPI1D title (toks.map String.mk) =
      .ok (.inl ⟨vals, title, [0, 1], []⟩) := by
  have hstrip : toks.map stripChars = toks := by
    rw [List.map_congr_left
      (fun t ht => stripChars_of_noWS (hrow t ht).1)]
    exact List.map_id toks
  have hfilter : ∀ a ∈ toks, (fun l => decide (l ≠ [])) a = true := by
    intro a ha
    simpa using (hrow a ha).2.1
  rw [read_LUT_SonySPI1D, map_data_map_mk, readL, hstrip,
    List.filter_eq_self.mpr hfilter, foldlM_numRows toks {} hrow]
  have hb := buildLUT_single_tokens title 0 1 toks vals []
    hlen (by norm_num) hparse
  simp only [List.map_nil] at hb
  show buildLUT title _ = _
  rw [← hb]
  rfl

/-! ## The Components dispatch -/

theorem stepL_components_core (st : RState) {l t : List Char}
    {rest : List (List Char)}
    (htok : tokensOf l = "Components".data :: t :: rest)
    (hhd : ¬(l.headD ' ' = '#')) :
    stepL st l =
      match asIntScalarChars t with
      | .error e => .error e
      | .ok n =>
        if n = 1 ∨ n = 3 then
          .ok { st with dimensions := if n = 1 then 1 else 2 }
        else .error "Only 1 or 3 components are supported!" := by
  simp only [stepL]
  rw [htok]
  simp only [List.isEmpty_cons, List.headD_cons, List.tail_cons]
  rw [if_neg hhd, if_neg (by simp : ¬((false : Bool) = true)),
    if_neg (by decide : ¬("Components".data = "Version".data)),
    if_neg (by decide : ¬("Components".data = "From".data)),
    if_neg (by decide : ¬("Components".data = "Length".data))]
  simp only [eq_self_iff_true, if_true, List.isEmpty_cons,
    Bool.false_eq_true, if_false]

theorem stepL_components_ok (st : RState) {l t : List Char}
    {rest : List (List Char)} {n : ℤ}
    (htok : tokensOf l = "Components".data :: t :: rest)
    (hhd : ¬(l.headD ' ' = '#'))
    (hn : asIntScalarChars t = .ok n) :
    stepL st l =
      if n = 1 ∨ n = 3 then
        .ok { st with dimensions := if n = 1 then 1 else 2 }
      else .error "Only 1 or 3 components are supported!" := by
  rw [stepL_components_core st htok hhd, hn]

theorem except_bind_ok {α β : Type} {x : Except String α}
    {f : α → Except String β} {r : β} (h : (x >>= f) = .ok r) :
    ∃ v, x = .ok v ∧ f v = .ok r := by
  cases x with
  | error e => exact Except.noConfusion h
  | ok v => exact ⟨v, rfl, h⟩

theorem mkLUT1D_ok {t : List ℚ} {name : String} {dom : List ℚ}
    {cs : List String} {L : LUT1D} (h : mkLUT1D t name dom cs = .ok L) :
    L = ⟨t, name, dom, cs⟩ := by
  simp only [mkLUT1D] at h
  split at h
  · exact (Except.ok.inj h).symm
  · exact Except.noConfusion h

theorem mkLUT3x1D_ok {t : List (List ℚ)} {name : String}
    {dom : List (List ℚ)} {cs : List String} {L : LUT3x1D}
    (h : mkLUT3x1D t name dom cs = .ok L) : L = ⟨t, name, dom, cs⟩ := by
  simp only [mkLUT3x1D] at h
  split at h
  · exact (Except.ok.inj h).symm
  · exact Except.noConfusion h

/-- C9: the Components dispatch of the reader. A `Components` line whose
value parses to an integer other than 1 or 3 makes the whole read fail
with the validation error; a `Components 1` line sets single-channel
mode and a `Components 3` line three-channel mode; a read finishing in
single-channel mode yields a LUT1D whose table is the squeezed row
table, and one finishing in three-channel mode yields a LUT3x1D whose
domain is the uniform 2x3 expansion `[[min,min,min],[max,max,max]]`. -/
theorem spi1d_components_dispatch :
    (∀ (title : String) (lines : List String) (pre post : List (List Char))
        (st : RState) (l t : List Char) (rest : List (List Char)) (n : ℤ),
      ((lines.map String.data).map stripChars).filter (fun x => x ≠ []) =
        pre ++ l :: post →
      List.foldlM stepL ({} : RState) pre = .ok st →
      ¬(l.headD ' ' = '#') →
      tokensOf l = "Components".data :: t :: rest →
      asIntScalarChars t = .ok n → n ≠ 1 → n ≠ 3 →
      read_LUT_SonySPI1D title lines =
        .error "Only 1 or 3 components are supported!") ∧
    (∀ (st : RState) (l t : List Char) (rest : List (List Char)),
      ¬(l.headD ' ' = '#') →
      tokensOf l = "Components".data :: t :: rest →
      asIntScalarChars t = .ok 1 →
      stepL st l = .ok { st with dimensions := 1 }) ∧
    (∀ (st : RState) (l t : List Char) (rest : List (List Char)),
      ¬(l.headD ' ' = '#') →
      tokensOf l = "Components".data :: t :: rest →
      asIntScalarChars t = .ok 3 →
      stepL st l = .ok { st with dimensions := 2 }) ∧
    (∀ (title : String) (st : RState) (r : ReadLUT),
      st.dimensions = 1 → buildLUT title st = .ok r →
      ∃ L rows, r = .inl L ∧ asFloatArrayRows st.data = .ok rows ∧
        npSqueezeTo1D rows = .ok L.table) ∧
    (∀ (title : String) (st : RState) (r : ReadLUT),
      st.dimensions = 2 → buildLUT title st = .ok r →
      ∃ L, r = .inr L ∧
        L.domain = [[st.domainMin, st.domainMin, st.domainMin],
                    [st.domainMax, st.domainMax, st.domainMax]]) := by
  refine ⟨?_, ?_, ?_, ?_, ?_⟩
  · intro title lines pre post st l t rest n hsplit hpre hhd htok hn hn1 hn3
    have hbad : stepL st l =
        .error "Only 1 or 3 components are supported!" := by
      rw [stepL_components_ok st htok hhd hn,
        if_neg (by rintro (h1 | h1); exacts [hn1 h1, hn3 h1])]
    rw [read_LUT_SonySPI1D, readL, hsplit, foldlM_stepL_append _ hpre,
      foldlM_stepL_cons_error _ _ hbad]
    rfl
  · intro st l t rest hhd htok hn
    rw [stepL_components_ok st htok hhd hn, if_pos (Or.inl rfl)]
    exact rfl
  · intro st l t rest hhd htok hn
    rw [stepL_components_ok st htok hhd hn, if_pos (Or.inr rfl)]
    exact rfl
  · intro title st r hdim hok
    rw [buildLUT] at hok
    obtain ⟨rows, h1, hok⟩ := except_bind_ok hok
    rw [hdim] at hok
    rw [if_pos rfl] at hok
    obtain ⟨tb, h2, hok⟩ := except_bind_ok hok
    obtain ⟨L, h3, hok⟩ := except_bind_ok hok
    have hL := mkLUT1D_ok h3
    refine ⟨L, rows, (Except.ok.inj hok).symm, h1, ?_⟩
    rw [hL]
    exact h2
  · intro title st r hdim hok
    rw [buildLUT] at hok
    obtain ⟨rows, h1, hok⟩ := except_bind_ok hok
    rw [if_neg (show ¬(st.dimensions = 1) by omega)] at hok
    obtain ⟨L, h3, hok⟩ := except_bind_ok hok
    have hL := mkLUT3x1D_ok h3
    refine ⟨L, (Except.ok.inj hok).symm, ?_⟩
    rw [hL]

/-- Witness: `Components 2` in an otherwise empty file is rejected. -/
theorem spi1d_components_dispatch_witness :
    read_LUT_SonySPI1D "t" ["Components 2"] =
      .error "Only 1 or 3 components are supported!" :=
  spi1d_components_dispatch.1 "t" ["Components 2"] [] []
    {} "Components 2".data "2".data [] 2
    (by decide) rfl (by decide) (by decide) (by decide)
    (by decide) (by decide)

/-- C8: the writer fails with a precondition error exactly when the
effective LUT (a sequence is replaced by its first element) has an
explicit domain, or is neither a LUT1D nor a LUT3x1D, or is a LUT3x1D
whose flattened domain does not reduce to exactly 2 distinct values;
for every valid argument outside these cases it returns the written
file. -/
theorem spi1d_write_precondition (arg : WriteLUTArg) (d : ℕ)
    (hv : arg.validB = true) :
    (∃ e, write_LUT_SonySPI1D arg d = .error e) ↔
      (arg.effective.isDomainExplicit = true ∨
        (arg.effective.is1D = false ∧ arg.effective.is3D = false) ∨
        ∃ L, arg.effective = .threeD L ∧
          (pyUnique L.domain.flatten).length ≠ 2) := by
  have hveff : arg.effective.validB = true := by
    cases arg with
    | single n => exact hv
    | sequence f rest =>
      simp only [WriteLUTArg.validB, Bool.and_eq_true] at hv
      exact hv.1
  have hexerr : (∃ e, write_LUT_SonySPI1D arg d = .error e) ↔
      (∃ e, writeL arg d = .error e) := by
    rw [write_LUT_SonySPI1D]
    cases h : writeL arg d with
    | ok v => simp [Except.map]
    | error e => simp [Except.map]
  rw [hexerr]
  have heffsingle : writeL arg d = writeL (.single arg.effective) d := rfl
  cases heff : arg.effective with
  | other o =>
    rw [heff] at heffsingle
    cases hexp : o.domainExplicit with
    | true =>
      refine iff_of_true ⟨"LUT domain must be implicit!", ?_⟩
        (Or.inl (show o.domainExplicit = true from hexp))
      rw [heffsingle]
      simp only [writeL, WriteLUTArg.effective, attest,
        LUTNode.isDomainExplicit]
      simp only [hexp]
      rfl
    | false =>
      refine iff_of_true ⟨"LUT must be either a 1D or 3x1D LUT!", ?_⟩
        (Or.inr (Or.inl ⟨rfl, rfl⟩))
      rw [heffsingle]
      simp only [writeL, WriteLUTArg.effective, attest,
        LUTNode.isDomainExplicit, LUTNode.is1D, LUTNode.is3D]
      simp only [hexp]
      rfl
  | oneD L =>
    rw [heff] at heffsingle hveff
    cases hexp : L.isDomainExplicit with
    | true =>
      refine iff_of_true ⟨"LUT domain must be implicit!", ?_⟩
        (Or.inl (show L.isDomainExplicit = true from hexp))
      rw [heffsingle]
      simp only [writeL, WriteLUTArg.effective, attest,
        LUTNode.isDomainExplicit]
      simp only [hexp]
      rfl
    | false =>
      have hdom2 : L.domain.length = 2 := by
        simp only [LUT1D.isDomainExplicit, decide_eq_false_iff_not, ne_eq,
          not_not] at hexp
        exact hexp
      apply iff_of_false
      · rintro ⟨e, he⟩
        rw [heffsingle, writeL_oneD L d hdom2] at he
        exact absurd he (by simp)
      · rintro (h | ⟨h1, h2⟩ | ⟨L', hL', hu⟩)
        · exact absurd h (by simp [LUTNode.isDomainExplicit, hexp])
        · exact absurd h1 (by simp [LUTNode.is1D])
        · exact absurd hL' (by simp)
  | threeD L =>
    rw [heff] at heffsingle hveff
    have hrows3 : ∀ r ∈ L.table, r.length = 3 := by
      simp only [LUTNode.validB, LUT3x1D.validB, Bool.and_eq_true,
        decide_eq_true_eq, List.all_eq_true] at hveff
      intro r hr
      simpa using hveff.2 r hr
    cases hexp : L.isDomainExplicit with
    | true =>
      refine iff_of_true ⟨"LUT domain must be implicit!", ?_⟩
        (Or.inl (show L.isDomainExplicit = true from hexp))
      rw [heffsingle]
      simp only [writeL, WriteLUTArg.effective, attest,
        LUTNode.isDomainExplicit]
      simp only [hexp]
      rfl
    | false =>
      by_cases hu : (pyUnique L.domain.flatten).length = 2
      · have hok : writeL (WriteLUTArg.single (.threeD L)) d = .ok
            (["Version 1".data,
              "From ".data ++
                fmtFixedChars d ((pyUnique L.domain.flatten).getD 0 0) ++
                ' ' ::
                  fmtFixedChars d ((pyUnique L.domain.flatten).getD 1 0),
              "Length ".data ++ natToDec L.table.length,
              "Components ".data ++ ['3'],
              ['\x7b']] ++ L.table.map (fun r =>
                ' ' :: fmtFixedChars d (r.getD 0 0) ++
                ' ' :: fmtFixedChars d (r.getD 1 0) ++
                ' ' :: fmtFixedChars d (r.getD 2 0)) ++
              [['\x7d']] ++
              L.comments.map (fun c => '#' :: ' ' :: c.data)) := by
          simp only [writeL, WriteLUTArg.effective, attest]
          rw [if_pos (show LUTNode.isDomainExplicit (.threeD L) = false
              from hexp),
            if_pos (Or.inr (show (LUTNode.threeD L).is3D = true from rfl)),
            if_pos hu]
          rw [mapM_fmtRow3 d L.table hrows3]
          rfl
        apply iff_of_false
        · rintro ⟨e, he⟩
          rw [heffsingle, hok] at he
          exact absurd he (by simp)
        · rintro (h | ⟨h1, h2⟩ | ⟨L', hL', hu'⟩)
          · exact absurd h (by simp [LUTNode.isDomainExplicit, hexp])
          · exact absurd h2 (by simp [LUTNode.is3D])
          · simp only [LUTNode.threeD.injEq] at hL'
            subst hL'
            exact hu' hu
      · refine iff_of_true ⟨"Non-uniform LUT domain is unsupported!", ?_⟩
          (Or.inr (Or.inr ⟨L, rfl, hu⟩))
        rw [heffsingle]
        simp only [writeL, WriteLUTArg.effective, attest]
        rw [if_pos (show LUTNode.isDomainExplicit (.threeD L) = false
            from hexp),
          if_pos (Or.inr (show (LUTNode.threeD L).is3D = true from rfl)),
          if_neg hu]
        rfl

/-- Witness for the writer-precondition theorem: a LUT1D with a
3-element (explicit) domain is rejected. -/
theorem spi1d_write_precondition_witness :
    ∃ e, write_LUT_SonySPI1D
        (.single (.oneD ⟨[0, 1], "n", [0, 1, 2], []⟩)) 7 = .error e := by
  refine (spi1d_write_precondition
    (.single (.oneD ⟨[0, 1], "n", [0, 1, 2], []⟩)) 7
    (by norm_num [WriteLUTArg.validB, LUTNode.validB,
      LUT1D.validB])).mpr ?_
  exact Or.inl (by decide)

/-- Witness for the reader-defaults theorem at a concrete two-row file. -/
theorem spi1d_read_defaults_witness :
    read_LUT_SonySPI1D "t" (["0.5".data, "0.25".data].map String.mk) =
      .ok (.inl ⟨[1 / 2, 1 / 4], "t", [0, 1], []⟩) :=
  spi1d_read_defaults "t" ["0.5".data, "0.25".data] [1 / 2, 1 / 4]
    (.cons parse_token_05 (.cons parse_token_025 .nil))
    (by norm_num)
    (by decide)

/-! ## Transfer functions: np.round and spow toolkit -/

theorem npRound_eq_of_bounds {x : ℝ} {n : ℤ} (h1 : (n : ℝ) < x + 1 / 2)
    (h2 : x + 1 / 2 < (n : ℝ) + 1) : npRound x = n := by
  simp only [npRound]
  have hfl : ⌊x + 1 / 2⌋ = n :=
    Int.floor_eq_iff.mpr ⟨le_of_lt h1, by push_cast; linarith⟩
  rw [hfl, if_neg]
  rintro ⟨ht, -⟩
  rw [ht] at h1
  exact lt_irrefl _ h1

theorem npRound_intCast (n : ℤ) : npRound ((n : ℤ) : ℝ) = n := by
  simp only [npRound]
  have hfl : ⌊(n : ℝ) + 1 / 2⌋ = n := by
    rw [Int.floor_eq_iff]
    constructor
    · linarith
    · push_cast; linarith
  rw [hfl, if_neg]
  rintro ⟨ht, -⟩
  have : (1 : ℝ) / 2 = 0 := by linarith
  norm_num at this

theorem npRound_zero : npRound (0 : ℝ) = 0 := by
  have h := npRound_intCast 0
  simpa using h

theorem npRound_mono {x y : ℝ} (h : x ≤ y) : npRound x ≤ npRound y := by
  simp only [npRound]
  have hle : ⌊x + 1 / 2⌋ ≤ ⌊y + 1 / 2⌋ := Int.floor_le_floor (by linarith)
  by_cases hty : y + 1 / 2 = ((⌊y + 1 / 2⌋ : ℤ) : ℝ) ∧ Odd ⌊y + 1 / 2⌋
  · rw [if_pos hty]
    by_cases htx : x + 1 / 2 = ((⌊x + 1 / 2⌋ : ℤ) : ℝ) ∧ Odd ⌊x + 1 / 2⌋
    · rw [if_pos htx]; omega
    · rw [if_neg htx]
      rcases lt_or_eq_of_le hle with hlt | heq
      · omega
      · exfalso
        apply htx
        have h1 : ((⌊x + 1 / 2⌋ : ℤ) : ℝ) ≤ x + 1 / 2 := Int.floor_le _
        have hue : x + 1 / 2 = ((⌊x + 1 / 2⌋ : ℤ) : ℝ) := by
          rw [heq]
          have h2 : x + 1 / 2 ≤ y + 1 / 2 := by linarith
          rw [heq] at h1
          linarith [hty.1]
        exact ⟨hue, by rw [heq]; exact hty.2⟩
  · rw [if_neg hty]
    by_cases htx : x + 1 / 2 = ((⌊x + 1 / 2⌋ : ℤ) : ℝ) ∧ Odd ⌊x + 1 / 2⌋
    · rw [if_pos htx]; omega
    · rw [if_neg htx]; exact hle

theorem spow_of_pos {b : ℝ} (hb : 0 < b) (p : ℝ) : spow b p = b ^ p := by
  rw [spow, Real.sign_of_pos hb, abs_of_pos hb, one_mul]

theorem romm_Et_eq : (16 : ℝ) ^ ((1.8 : ℝ) / (1 - 1.8)) = 1 / 512 := by
  have h16 : (16 : ℝ) = 2 ^ (4 : ℝ) := by
    rw [show (4 : ℝ) = ((4 : ℕ) : ℝ) by norm_num, Real.rpow_natCast]
    norm_num
  rw [h16, ← Real.rpow_mul (by norm_num : (0 : ℝ) ≤ 2),
    show (4 : ℝ) * ((1.8 : ℝ) / (1 - 1.8)) = -9 by norm_num,
    Real.rpow_neg (by norm_num : (0 : ℝ) ≤ 2),
    show (9 : ℝ) = ((9 : ℕ) : ℝ) by norm_num, Real.rpow_natCast]
  norm_num

/-- C3 counterexample: `cctf_encoding_ROMMRGB` does not clamp negative
inputs to 0 — at `X = -1` the linear segment yields `-16` in float mode,
not 0. -/
theorem romm_encode_no_negative_clamp :
    cctf_encoding_ROMMRGB (-1) 8 false = -16 := by
  simp only [cctf_encoding_ROMMRGB, romm_Et_eq]
  norm_num

/-- C3 (amended): for every input `X <= 0`, every bit depth and both
output modes, `cctf_encoding_RIMMRGB` and `log_encoding_ERIMMRGB`
return 0; `cctf_encoding_ROMMRGB` is NOT clamped at 0 — it applies its
linear segment, returning `16 * X` in float mode (0 only at `X = 0`,
strictly negative output for `X < 0`) and the rounded `16 * X * I_max`
in integer mode. -/
theorem encode_nonpositive_clamp :
    (∀ (X : ℝ) (bd : ℕ) (b : Bool), X ≤ 0 →
      cctf_encoding_RIMMRGB X bd b 2 = 0) ∧
    (∀ (X : ℝ) (bd : ℕ) (b : Bool), X ≤ 0 →
      log_encoding_ERIMMRGB X bd b 0.001 316.2 = 0) ∧
    (∀ (X : ℝ) (bd : ℕ), 1 ≤ bd → X ≤ 0 →
      cctf_encoding_ROMMRGB X bd false = 16 * X ∧
      cctf_encoding_ROMMRGB X bd true =
        ((npRound (X * 16 * (2 ^ bd - 1)) : ℤ) : ℝ)) := by
  refine ⟨?_, ?_, ?_⟩
  · intro X bd b hX
    rcases lt_or_eq_of_le hX with h | rfl
    · simp only [cctf_encoding_RIMMRGB]
      rw [if_pos (show X < 0.0 by rw [show (0.0 : ℝ) = 0 by norm_num]; exact h)]
      cases b
      · norm_num
      · norm_num [npRound_zero]
    · simp only [cctf_encoding_RIMMRGB]
      rw [if_neg (by norm_num : ¬((0 : ℝ) < 0.0)),
        if_pos (by norm_num : (0 : ℝ) < 0.018)]
      cases b
      · norm_num
      · norm_num [npRound_zero]
  · intro X bd b hX
    have hEt : (0 : ℝ) < Real.exp 1 * 0.001 := by positivity
    rcases lt_or_eq_of_le hX with h | rfl
    · simp only [log_encoding_ERIMMRGB]
      rw [if_pos (show X < 0.0 by rw [show (0.0 : ℝ) = 0 by norm_num]; exact h)]
      cases b
      · norm_num
      · norm_num [npRound_zero]
    · simp only [log_encoding_ERIMMRGB]
      rw [if_neg (by norm_num : ¬((0 : ℝ) < 0.0)), if_pos (le_of_lt hEt)]
      cases b
      · norm_num
      · norm_num [npRound_zero]
  · intro X bd hbd hX
    have hEt : X < (16 : ℝ) ^ ((1.8 : ℝ) / (1 - 1.8)) :=
      lt_of_le_of_lt hX (by rw [romm_Et_eq]; norm_num)
    have hI : (0 : ℝ) < 2 ^ bd - 1 := by
      have h2 : (2 : ℝ) ^ 1 ≤ 2 ^ bd := pow_le_pow_right (by norm_num) hbd
      norm_num at h2
      linarith
    constructor
    · simp only [cctf_encoding_ROMMRGB]
      rw [if_pos hEt, if_neg (by simp : ¬((false : Bool) = true)),
        mul_div_cancel_right₀ _ (ne_of_gt hI)]
      ring
    · simp only [cctf_encoding_ROMMRGB]
      rw [if_pos hEt, if_pos trivial]

/-- C4 (code bug): the `I_max` clamp branches of `cctf_encoding_RIMMRGB`
and `log_encoding_ERIMMRGB` are dead — the preceding `np.select`
condition (`X >= 0.018`, resp. `X > E_t`) already captures every input
above `E_clip`, so inputs above `E_clip` keep following the log/power
formula and the float-mode output exceeds 1 instead of clamping to it:
at `X = 3 > E_clip = 2` for RIMM and `X = 400 > E_clip = 316.2` for
ERIMM. -/
theorem encode_above_Eclip_not_clamped :
    1 < cctf_encoding_RIMMRGB 3 8 false 2 ∧
    1 < log_encoding_ERIMMRGB 400 8 false 0.001 316.2 := by
  constructor
  · have h2pos : (0 : ℝ) < 2 := by norm_num
    have hv2 : (1 : ℝ) < (2 : ℝ) ^ (0.45 : ℝ) :=
      (Real.one_lt_rpow_iff_of_pos h2pos).mpr
        (Or.inl ⟨by norm_num, by norm_num⟩)
    have hVpos : (0 : ℝ) < 1.099 * (2 : ℝ) ^ (0.45 : ℝ) - 0.099 := by
      nlinarith
    have h32 : (2 : ℝ) ^ (0.45 : ℝ) < (3 : ℝ) ^ (0.45 : ℝ) :=
      Real.rpow_lt_rpow (by norm_num) (by norm_num) (by norm_num)
    simp only [cctf_encoding_RIMMRGB]
    rw [spow_of_pos (by norm_num : (0 : ℝ) < 3),
      spow_of_pos (by norm_num : (0 : ℝ) < 2)]
    rw [if_neg (by norm_num : ¬((3 : ℝ) < 0.0)),
      if_neg (by norm_num : ¬((3 : ℝ) < 0.018)),
      if_pos (by norm_num : (3 : ℝ) ≥ 0.018),
      if_neg (by simp : ¬((false : Bool) = true))]
    rw [lt_div_iff (by norm_num : (0 : ℝ) < (2 : ℝ) ^ (8 : ℕ) - 1),
      div_mul_eq_mul_div, lt_div_iff hVpos]
    nlinarith [h32]
  · have hE : Real.exp 1 * 0.001 < 400 := by
      have h := Real.exp_one_lt_d9
      nlinarith
    have hlog1 : Real.log 0.001 < Real.log 316.2 :=
      Real.log_lt_log (by norm_num) (by norm_num)
    have hlog2 : Real.log 316.2 < Real.log 400 :=
      Real.log_lt_log (by norm_num) (by norm_num)
    simp only [log_encoding_ERIMMRGB]
    rw [if_neg (by norm_num : ¬((400 : ℝ) < 0.0)),
      if_neg (not_le.mpr hE),
      if_pos (show (400 : ℝ) > Real.exp 1 * 0.001 from hE),
      if_neg (by simp : ¬((false : Bool) = true))]
    rw [mul_div_cancel_left₀ _
        (by norm_num : ((2 : ℝ) ^ (8 : ℕ) - 1) ≠ 0)]
    exact (one_lt_div (by linarith)).mpr (by linarith)

/-! ## Monotonicity of the encoders -/

theorem romm_boundary : ((1 : ℝ) / 512) ^ ((1 : ℝ) / 1.8) = 16 * (1 / 512) := by
  have h512 : ((1 : ℝ) / 512) = (2 : ℝ) ^ (-9 : ℝ) := by
    rw [Real.rpow_neg (by norm_num : (0 : ℝ) ≤ 2),
      show (9 : ℝ) = ((9 : ℕ) : ℝ) by norm_num, Real.rpow_natCast]
    norm_num
  rw [h512, ← Real.rpow_mul (by norm_num : (0 : ℝ) ≤ 2),
    show (-9 : ℝ) * ((1 : ℝ) / 1.8) = -5 by norm_num,
    Real.rpow_neg (by norm_num : (0 : ℝ) ≤ 2),
    show (5 : ℝ) = ((5 : ℕ) : ℝ) by norm_num, Real.rpow_natCast]
  norm_num

theorem rimm_knee :
    4.5 * (0.018 : ℝ) ≤ 1.099 * (0.018 : ℝ) ^ (0.45 : ℝ) - 0.099 := by
  have hpow : ((0.18 : ℝ) / 1.099) ≤ (0.018 : ℝ) ^ (0.45 : ℝ) := by
    have hr : ((0.018 : ℝ) ^ (0.45 : ℝ)) ^ (20 : ℕ) = (0.018 : ℝ) ^ (9 : ℕ) := by
      rw [← Real.rpow_natCast ((0.018 : ℝ) ^ (0.45 : ℝ)) 20,
        ← Real.rpow_mul (by norm_num : (0 : ℝ) ≤ 0.018),
        show (0.45 : ℝ) * ((20 : ℕ) : ℝ) = ((9 : ℕ) : ℝ) by norm_num,
        Real.rpow_natCast]
    have h20 : (((0.18 : ℝ) / 1.099)) ^ (20 : ℕ) ≤
        ((0.018 : ℝ) ^ (0.45 : ℝ)) ^ (20 : ℕ) := by
      rw [hr]
      norm_num
    exact le_of_pow_le_pow_left (by norm_num)
      (Real.rpow_nonneg (by norm_num) _) h20
  nlinarith [hpow]

theorem romm_core_mono (bd : ℕ) {X1 X2 : ℝ} (h : X1 ≤ X2) :
    (if X1 < (16 : ℝ) ^ ((1.8 : ℝ) / (1 - 1.8)) then
       X1 * 16 * ((2 : ℝ) ^ bd - 1)
     else spow X1 (1 / 1.8) * ((2 : ℝ) ^ bd - 1)) ≤
    (if X2 < (16 : ℝ) ^ ((1.8 : ℝ) / (1 - 1.8)) then
       X2 * 16 * ((2 : ℝ) ^ bd - 1)
     else spow X2 (1 / 1.8) * ((2 : ℝ) ^ bd - 1)) := by
  have hI : (0 : ℝ) ≤ (2 : ℝ) ^ bd - 1 := by
    have h1 : (1 : ℝ) ^ bd ≤ (2 : ℝ) ^ bd :=
      pow_le_pow_left (by norm_num) (by norm_num) bd
    rw [one_pow] at h1
    linarith
  rw [romm_Et_eq]
  rcases lt_or_le X2 ((1 : ℝ) / 512) with h2 | h2
  · rw [if_pos (lt_of_le_of_lt h h2), if_pos h2]
    nlinarith
  · rw [if_neg (not_lt.mpr h2)]
    have hX2pos : (0 : ℝ) < X2 := lt_of_lt_of_le (by norm_num) h2
    rw [spow_of_pos hX2pos]
    rcases lt_or_le X1 ((1 : ℝ) / 512) with h1 | h1
    · rw [if_pos h1]
      have hpow : ((1 : ℝ) / 512) ^ ((1 : ℝ) / 1.8) ≤ X2 ^ ((1 : ℝ) / 1.8) :=
        Real.rpow_le_rpow (by norm_num) h2 (by norm_num)
      calc X1 * 16 * ((2 : ℝ) ^ bd - 1) ≤
            (16 * ((1 : ℝ) / 512)) * ((2 : ℝ) ^ bd - 1) := by nlinarith
        _ = ((1 : ℝ) / 512) ^ ((1 : ℝ) / 1.8) * ((2 : ℝ) ^ bd - 1) := by
            rw [romm_boundary]
        _ ≤ X2 ^ ((1 : ℝ) / 1.8) * ((2 : ℝ) ^ bd - 1) := by nlinarith
    · rw [if_neg (not_lt.mpr h1)]
      have hX1pos : (0 : ℝ) < X1 := lt_of_lt_of_le (by norm_num) h1
      rw [spow_of_pos hX1pos]
      have hpow : X1 ^ ((1 : ℝ) / 1.8) ≤ X2 ^ ((1 : ℝ) / 1.8) :=
        Real.rpow_le_rpow (le_of_lt hX1pos) h (by norm_num)
      nlinarith

theorem rimm_core_mono {X1 X2 : ℝ} (h : X1 ≤ X2) (I : ℝ) :
    (if X1 < 0.0 then (0 : ℝ) else if X1 < 0.018 then 4.5 * X1
     else if X1 ≥ 0.018 then 1.099 * spow X1 0.45 - 0.099
     else if X1 > 2 then I else 0) ≤
    (if X2 < 0.0 then (0 : ℝ) else if X2 < 0.018 then 4.5 * X2
     else if X2 ≥ 0.018 then 1.099 * spow X2 0.45 - 0.099
     else if X2 > 2 then I else 0) := by
  rcases lt_or_le X1 0.0 with h1 | h1
  · rw [if_pos h1]
    rcases lt_or_le X2 0.0 with h2 | h2
    · rw [if_pos h2]
    · rw [if_neg (not_lt.mpr h2)]
      rcases lt_or_le X2 0.018 with h2b | h2b
      · rw [if_pos h2b]
        have h2' : (0 : ℝ) ≤ X2 := by
          rw [show (0.0 : ℝ) = 0 by norm_num] at h2
          exact h2
        nlinarith
      · rw [if_neg (not_lt.mpr h2b), if_pos (show X2 ≥ 0.018 from h2b)]
        rw [spow_of_pos (lt_of_lt_of_le (by norm_num) h2b)]
        have hm : (0.018 : ℝ) ^ (0.45 : ℝ) ≤ X2 ^ (0.45 : ℝ) :=
          Real.rpow_le_rpow (by norm_num) h2b (by norm_num)
        nlinarith [rimm_knee]
  · have h1' : (0 : ℝ) ≤ X1 := by
      rw [show (0.0 : ℝ) = 0 by norm_num] at h1
      exact h1
    rw [if_neg (not_lt.mpr h1), if_neg (not_lt.mpr (le_trans h1 h))]
    rcases lt_or_le X1 0.018 with h1b | h1b
    · rw [if_pos h1b]
      rcases lt_or_le X2 0.018 with h2b | h2b
      · rw [if_pos h2b]
        linarith
      · rw [if_neg (not_lt.mpr h2b), if_pos (show X2 ≥ 0.018 from h2b)]
        rw [spow_of_pos (lt_of_lt_of_le (by norm_num) h2b)]
        have hm : (0.018 : ℝ) ^ (0.45 : ℝ) ≤ X2 ^ (0.45 : ℝ) :=
          Real.rpow_le_rpow (by norm_num) h2b (by norm_num)
        nlinarith [rimm_knee]
    · rw [if_neg (not_lt.mpr h1b), if_pos (show X1 ≥ 0.018 from h1b),
        if_neg (not_lt.mpr (le_trans h1b h)),
        if_pos (show X2 ≥ 0.018 from le_trans h1b h)]
      rw [spow_of_pos (lt_of_lt_of_le (by norm_num) h1b),
        spow_of_pos (lt_of_lt_of_le (by norm_num) (le_trans h1b h))]
      have hm : X1 ^ (0.45 : ℝ) ≤ X2 ^ (0.45 : ℝ) :=
        Real.rpow_le_rpow (by linarith) h (by norm_num)
      nlinarith

theorem erimm_core_mono {X1 X2 : ℝ} (h : X1 ≤ X2) {I : ℝ} (hI : 0 ≤ I) :
    (if X1 < 0.0 then (0 : ℝ)
     else if X1 ≤ Real.exp 1 * 0.001 then
       I * ((Real.log (Real.exp 1 * 0.001) - Real.log 0.001) /
         (Real.log 316.2 - Real.log 0.001)) * X1 / (Real.exp 1 * 0.001)
     else if X1 > Real.exp 1 * 0.001 then
       I * ((Real.log X1 - Real.log 0.001) /
         (Real.log 316.2 - Real.log 0.001))
     else if X1 > 316.2 then I else 0) ≤
    (if X2 < 0.0 then (0 : ℝ)
     else if X2 ≤ Real.exp 1 * 0.001 then
       I * ((Real.log (Real.exp 1 * 0.001) - Real.log 0.001) /
         (Real.log 316.2 - Real.log 0.001)) * X2 / (Real.exp 1 * 0.001)
     else if X2 > Real.exp 1 * 0.001 then
       I * ((Real.log X2 - Real.log 0.001) /
         (Real.log 316.2 - Real.log 0.001))
     else if X2 > 316.2 then I else 0) := by
  have hEt : (0 : ℝ) < Real.exp 1 * 0.001 := by positivity
  have hD : (0 : ℝ) < Real.log 316.2 - Real.log 0.001 := by
    have := Real.log_lt_log (show (0 : ℝ) < 0.001 by norm_num)
      (show (0.001 : ℝ) < 316.2 by norm_num)
    linarith
  have hlt : Real.log (Real.exp 1 * 0.001) = 1 + Real.log 0.001 := by
    rw [Real.log_mul (Real.exp_ne_zero 1) (by norm_num), Real.log_exp]
  have hc : (0 : ℝ) ≤ (Real.log (Real.exp 1 * 0.001) - Real.log 0.001) /
      (Real.log 316.2 - Real.log 0.001) := by
    apply div_nonneg _ (le_of_lt hD)
    rw [hlt]
    linarith
  have hA : (0 : ℝ) ≤ I * ((Real.log (Real.exp 1 * 0.001) - Real.log 0.001) /
      (Real.log 316.2 - Real.log 0.001)) := mul_nonneg hI hc
  rcases lt_or_le X1 0.0 with h1 | h1
  · rw [if_pos h1]
    rcases lt_or_le X2 0.0 with h2 | h2
    · rw [if_pos h2]
    · have h2' : (0 : ℝ) ≤ X2 := by
        rw [show (0.0 : ℝ) = 0 by norm_num] at h2
        exact h2
      rw [if_neg (not_lt.mpr h2)]
      rcases le_or_lt X2 (Real.exp 1 * 0.001) with h2b | h2b
      · rw [if_pos h2b]
        exact div_nonneg (mul_nonneg hA h2') (le_of_lt hEt)
      · rw [if_neg (not_le.mpr h2b), if_pos h2b]
        have hln : Real.log (Real.exp 1 * 0.001) ≤ Real.log X2 :=
          Real.log_le_log hEt (le_of_lt h2b)
        apply mul_nonneg hI
        apply div_nonneg _ (le_of_lt hD)
        rw [hlt] at hln
        linarith
  · have h1' : (0 : ℝ) ≤ X1 := by
      rw [show (0.0 : ℝ) = 0 by norm_num] at h1
      exact h1
    rw [if_neg (not_lt.mpr h1), if_neg (not_lt.mpr (le_trans h1 h))]
    rcases le_or_lt X1 (Real.exp 1 * 0.001) with h1b | h1b
    · rw [if_pos h1b]
      rcases le_or_lt X2 (Real.exp 1 * 0.001) with h2b | h2b
      · rw [if_pos h2b]
        exact (div_le_div_right hEt).mpr (mul_le_mul_of_nonneg_left h hA)
      · rw [if_neg (not_le.mpr h2b), if_pos h2b]
        have hstep1 : I * ((Real.log (Real.exp 1 * 0.001) - Real.log 0.001) /
            (Real.log 316.2 - Real.log 0.001)) * X1 / (Real.exp 1 * 0.001) ≤
            I * ((Real.log (Real.exp 1 * 0.001) - Real.log 0.001) /
            (Real.log 316.2 - Real.log 0.001)) := by
          have hmul : I * ((Real.log (Real.exp 1 * 0.001) - Real.log 0.001) /
              (Real.log 316.2 - Real.log 0.001)) * X1 ≤
              I * ((Real.log (Real.exp 1 * 0.001) - Real.log 0.001) /
              (Real.log 316.2 - Real.log 0.001)) * (Real.exp 1 * 0.001) :=
            mul_le_mul_of_nonneg_left h1b hA
          calc I * ((Real.log (Real.exp 1 * 0.001) - Real.log 0.001) /
              (Real.log 316.2 - Real.log 0.001)) * X1 / (Real.exp 1 * 0.001) ≤
              I * ((Real.log (Real.exp 1 * 0.001) - Real.log 0.001) /
              (Real.log 316.2 - Real.log 0.001)) * (Real.exp 1 * 0.001) /
                (Real.exp 1 * 0.001) := (div_le_div_right hEt).mpr hmul
            _ = I * ((Real.log (Real.exp 1 * 0.001) - Real.log 0.001) /
              (Real.log 316.2 - Real.log 0.001)) :=
              mul_div_cancel_right₀ _ (ne_of_gt hEt)
        have hln : Real.log (Real.exp 1 * 0.001) ≤ Real.log X2 :=
          Real.log_le_log hEt (le_of_lt h2b)
        have hstep2 : I * ((Real.log (Real.exp 1 * 0.001) - Real.log 0.001) /
            (Real.log 316.2 - Real.log 0.001)) ≤
            I * ((Real.log X2 - Real.log 0.001) /
            (Real.log 316.2 - Real.log 0.001)) :=
          mul_le_mul_of_nonneg_left
            ((div_le_div_right hD).mpr (by linarith)) hI
        exact le_trans hstep1 hstep2
    · rw [if_neg (not_le.mpr h1b), if_pos h1b]
      have h2b : Real.exp 1 * 0.001 < X2 := lt_of_lt_of_le h1b h
      rw [if_neg (not_le.mpr h2b), if_pos h2b]
      have hln : Real.log X1 ≤ Real.log X2 :=
        Real.log_le_log (lt_trans hEt h1b) h
      exact mul_le_mul_of_nonneg_left
        ((div_le_div_right hD).mpr (by linarith)) hI

theorem rimm_Vclip_pos : (0 : ℝ) < 1.099 * spow 2 0.45 - 0.099 := by
  rw [spow_of_pos (by norm_num : (0 : ℝ) < 2)]
  have hv2 : (1 : ℝ) < (2 : ℝ) ^ (0.45 : ℝ) :=
    (Real.one_lt_rpow_iff_of_pos (by norm_num)).mpr
      (Or.inl ⟨by norm_num, by norm_num⟩)
  nlinarith

/-- C5: each encoder is non-decreasing over all of its real domain, at
any fixed bit depth at least 1, in float mode and in integer mode (the
RIMM and ERIMM clip parameters at their defaults). -/
theorem encode_monotone (bd : ℕ) (b : Bool) (X1 X2 : ℝ)
    (hbd : 1 ≤ bd) (h : X1 ≤ X2) :
    cctf_encoding_ROMMRGB X1 bd b ≤ cctf_encoding_ROMMRGB X2 bd b ∧
    cctf_encoding_RIMMRGB X1 bd b 2 ≤ cctf_encoding_RIMMRGB X2 bd b 2 ∧
    log_encoding_ERIMMRGB X1 bd b 0.001 316.2 ≤
      log_encoding_ERIMMRGB X2 bd b 0.001 316.2 := by
  have hI : (0 : ℝ) < (2 : ℝ) ^ bd - 1 := by
    have h2 : (2 : ℝ) ^ 1 ≤ 2 ^ bd := pow_le_pow_right (by norm_num) hbd
    norm_num at h2
    linarith
  refine ⟨?_, ?_, ?_⟩
  · simp only [cctf_encoding_ROMMRGB]
    cases b
    · rw [if_neg (by simp : ¬((false : Bool) = true)),
        if_neg (by simp : ¬((false : Bool) = true))]
      exact (div_le_div_right hI).mpr (romm_core_mono bd h)
    · rw [if_pos (rfl : (true : Bool) = true),
        if_pos (rfl : (true : Bool) = true)]
      exact_mod_cast npRound_mono (romm_core_mono bd h)
  · simp only [cctf_encoding_RIMMRGB]
    have hq : (0 : ℝ) ≤ ((2 : ℝ) ^ bd - 1) / (1.099 * spow 2 0.45 - 0.099) :=
      div_nonneg (le_of_lt hI) (le_of_lt rimm_Vclip_pos)
    have hcore := mul_le_mul_of_nonneg_left (rimm_core_mono h
      ((2 : ℝ) ^ bd - 1)) hq
    cases b
    · rw [if_neg (by simp : ¬((false : Bool) = true)),
        if_neg (by simp : ¬((false : Bool) = true))]
      exact (div_le_div_right hI).mpr hcore
    · rw [if_pos (rfl : (true : Bool) = true),
        if_pos (rfl : (true : Bool) = true)]
      exact_mod_cast npRound_mono hcore
  · simp only [log_encoding_ERIMMRGB]
    have hcore := erimm_core_mono h (le_of_lt hI)
    cases b
    · rw [if_neg (by simp : ¬((false : Bool) = true)),
        if_neg (by simp : ¬((false : Bool) = true))]
      exact (div_le_div_right hI).mpr hcore
    · rw [if_pos (rfl : (true : Bool) = true),
        if_pos (rfl : (true : Bool) = true)]
      exact_mod_cast npRound_mono hcore

/-- Witness for the monotonicity theorem at `X1 = 0 ≤ X2 = 1`. -/
theorem encode_monotone_witness :
    cctf_encoding_ROMMRGB 0 8 false ≤ cctf_encoding_ROMMRGB 1 8 false ∧
    cctf_encoding_RIMMRGB 0 8 false 2 ≤ cctf_encoding_RIMMRGB 1 8 false 2 ∧
    log_encoding_ERIMMRGB 0 8 false 0.001 316.2 ≤
      log_encoding_ERIMMRGB 1 8 false 0.001 316.2 :=
  encode_monotone 8 false 0 1 (by norm_num) (by norm_num)

/-! ## Float-mode round trips -/

theorem pow_bd_pos {bd : ℕ} (hbd : 1 ≤ bd) : (0 : ℝ) < (2 : ℝ) ^ bd - 1 := by
  have h2 : (2 : ℝ) ^ 1 ≤ 2 ^ bd := pow_le_pow_right (by norm_num) hbd
  norm_num at h2
  linarith

theorem romm_float_roundtrip (bd : ℕ) (X : ℝ) (hbd : 1 ≤ bd)
    (h0 : 0 ≤ X) :
    cctf_decoding_ROMMRGB (cctf_encoding_ROMMRGB X bd false) bd false = X := by
  have hI : (0 : ℝ) < (2 : ℝ) ^ bd - 1 := pow_bd_pos hbd
  simp only [cctf_encoding_ROMMRGB, cctf_decoding_ROMMRGB, romm_Et_eq]
  rw [if_neg (by simp : ¬((false : Bool) = true)),
    if_neg (by simp : ¬((false : Bool) = true))]
  rw [div_mul_cancel₀ _ (ne_of_gt hI)]
  rcases lt_or_le X ((1 : ℝ) / 512) with hx | hx
  · rw [if_pos hx, if_pos (by nlinarith)]
    field_simp
    ring
  · have hXpos : (0 : ℝ) < X := lt_of_lt_of_le (by norm_num) hx
    rw [if_neg (not_lt.mpr hx), spow_of_pos hXpos]
    have hpow : ((1 : ℝ) / 512) ^ ((1 : ℝ) / 1.8) ≤ X ^ ((1 : ℝ) / 1.8) :=
      Real.rpow_le_rpow (by norm_num) hx (by norm_num)
    rw [romm_boundary] at hpow
    rw [if_neg (not_lt.mpr (by nlinarith))]
    rw [mul_div_cancel_right₀ _ (ne_of_gt hI),
      spow_of_pos (Real.rpow_pos_of_pos hXpos _),
      ← Real.rpow_mul h0,
      show (1 : ℝ) / 1.8 * 1.8 = 1 by norm_num, Real.rpow_one]

theorem q_scale_cancel {I V v : ℝ} (hI : I ≠ 0) (hV : V ≠ 0) :
    I / V * v / I = v / V := by
  field_simp
  ring

theorem rimm_encode_eval (bd : ℕ) (X : ℝ) (hI : (0 : ℝ) < (2 : ℝ) ^ bd - 1)
    (h0 : 0 ≤ X) :
    cctf_encoding_RIMMRGB X bd false 2 =
      (if X < 0.018 then 4.5 * X else 1.099 * spow X 0.45 - 0.099) /
        (1.099 * spow 2 0.45 - 0.099) := by
  have hV := rimm_Vclip_pos
  simp only [cctf_encoding_RIMMRGB]
  rw [if_neg (by simp : ¬((false : Bool) = true)),
    if_neg (not_lt.mpr (show (0.0 : ℝ) ≤ X by
      rw [show (0.0 : ℝ) = 0 by norm_num]; exact h0))]
  rcases lt_or_le X 0.018 with hx | hx
  · rw [if_pos hx, if_pos hx]
    exact q_scale_cancel (ne_of_gt hI) (ne_of_gt hV)
  · rw [if_neg (not_lt.mpr hx), if_neg (not_lt.mpr hx),
      if_pos (show X ≥ 0.018 from hx)]
    exact q_scale_cancel (ne_of_gt hI) (ne_of_gt hV)

theorem rimm_decode_eval (bd : ℕ) (o : ℝ)
    (hI : (0 : ℝ) < (2 : ℝ) ^ bd - 1) :
    cctf_decoding_RIMMRGB o bd false 2 =
      if o < cctf_encoding_RIMMRGB 0.018 bd false 2 then
        (1.099 * spow 2 0.45 - 0.099) * o / 4.5
      else spow (((1.099 * spow 2 0.45 - 0.099) * o + 0.099) / 1.099)
        (1 / 0.45) := by
  simp only [cctf_decoding_RIMMRGB]
  rw [if_neg (by simp : ¬((false : Bool) = true))]
  rw [mul_div_cancel_right₀ o (ne_of_gt hI)]
  have hm : (1.099 * spow 2 0.45 - 0.099) * (o * ((2 : ℝ) ^ bd - 1)) /
      ((2 : ℝ) ^ bd - 1) = (1.099 * spow 2 0.45 - 0.099) * o := by
    rw [mul_div_assoc, mul_div_cancel_right₀ o (ne_of_gt hI)]
  rw [hm]

theorem rimm_knee_pos : (0 : ℝ) < 1.099 * (0.018 : ℝ) ^ (0.45 : ℝ) - 0.099 := by
  nlinarith [rimm_knee]

theorem rimm_float_roundtrip (bd : ℕ) (X : ℝ) (hbd : 1 ≤ bd)
    (h0 : 0 ≤ X) :
    cctf_decoding_RIMMRGB (cctf_encoding_RIMMRGB X bd false 2) bd false 2 =
      X := by
  have hI : (0 : ℝ) < (2 : ℝ) ^ bd - 1 := pow_bd_pos hbd
  have hV := rimm_Vclip_pos
  have hknee : cctf_encoding_RIMMRGB 0.018 bd false 2 =
      (1.099 * (0.018 : ℝ) ^ (0.45 : ℝ) - 0.099) /
        (1.099 * spow 2 0.45 - 0.099) := by
    rw [rimm_encode_eval bd 0.018 hI (by norm_num), if_neg (lt_irrefl _),
      spow_of_pos (by norm_num : (0 : ℝ) < 0.018)]
  rw [rimm_encode_eval bd X hI h0, rimm_decode_eval bd _ hI, hknee]
  rcases lt_or_le X 0.018 with hx | hx
  · rw [if_pos hx]
    rw [if_pos ((div_lt_div_right hV).mpr (by nlinarith [rimm_knee]))]
    field_simp
  · have hXpos : (0 : ℝ) < X := lt_of_lt_of_le (by norm_num) hx
    rw [if_neg (not_lt.mpr hx), spow_of_pos hXpos]
    have hmono : (0.018 : ℝ) ^ (0.45 : ℝ) ≤ X ^ (0.45 : ℝ) :=
      Real.rpow_le_rpow (by norm_num) hx (by norm_num)
    rw [if_neg (not_lt.mpr ((div_le_div_right hV).mpr (by nlinarith)))]
    have hsim : ((1.099 * spow 2 0.45 - 0.099) *
        ((1.099 * X ^ (0.45 : ℝ) - 0.099) / (1.099 * spow 2 0.45 - 0.099)) +
          0.099) / 1.099 = X ^ (0.45 : ℝ) := by
      field_simp
    rw [hsim, spow_of_pos (Real.rpow_pos_of_pos hXpos _),
      ← Real.rpow_mul h0,
      show (0.45 : ℝ) * (1 / 0.45) = 1 by norm_num, Real.rpow_one]

theorem erimm_encode_eval (bd : ℕ) (X : ℝ)
    (hI : (0 : ℝ) < (2 : ℝ) ^ bd - 1) (h0 : 0 ≤ X) :
    log_encoding_ERIMMRGB X bd false 0.001 316.2 =
      if X ≤ Real.exp 1 * 0.001 then
        ((Real.log (Real.exp 1 * 0.001) - Real.log 0.001) /
          (Real.log 316.2 - Real.log 0.001)) * X / (Real.exp 1 * 0.001)
      else (Real.log X - Real.log 0.001) /
        (Real.log 316.2 - Real.log 0.001) := by
  have hEt : (0 : ℝ) < Real.exp 1 * 0.001 := by positivity
  simp only [log_encoding_ERIMMRGB]
  rw [if_neg (by simp : ¬((false : Bool) = true)),
    if_neg (not_lt.mpr (show (0.0 : ℝ) ≤ X by
      rw [show (0.0 : ℝ) = 0 by norm_num]; exact h0))]
  rcases le_or_lt X (Real.exp 1 * 0.001) with hx | hx
  · rw [if_pos hx, if_pos hx]
    rw [div_right_comm, mul_assoc, mul_comm ((2 : ℝ) ^ bd - 1) _,
      mul_div_cancel_right₀ _ (ne_of_gt hI)]
  · rw [if_neg (not_le.mpr hx), if_pos hx, if_neg (not_le.mpr hx)]
    exact mul_div_cancel_left₀ _ (ne_of_gt hI)

theorem erimm_decode_eval (bd : ℕ) (o : ℝ)
    (hI : (0 : ℝ) < (2 : ℝ) ^ bd - 1) :
    log_decoding_ERIMMRGB o bd false 0.001 316.2 =
      if o ≤ (Real.log (Real.exp 1 * 0.001) - Real.log 0.001) /
          (Real.log 316.2 - Real.log 0.001) then
        ((Real.log 316.2 - Real.log 0.001) /
          (Real.log (Real.exp 1 * 0.001) - Real.log 0.001)) *
          (o * (Real.exp 1 * 0.001))
      else Real.exp (o * (Real.log 316.2 - Real.log 0.001) +
        Real.log 0.001) := by
  simp only [log_decoding_ERIMMRGB]
  rw [if_neg (by simp : ¬((false : Bool) = true))]
  by_cases hc : o ≤ (Real.log (Real.exp 1 * 0.001) - Real.log 0.001) /
      (Real.log 316.2 - Real.log 0.001)
  · rw [if_pos (show o * ((2 : ℝ) ^ bd - 1) ≤ ((2 : ℝ) ^ bd - 1) *
        ((Real.log (Real.exp 1 * 0.001) - Real.log 0.001) /
          (Real.log 316.2 - Real.log 0.001)) by nlinarith), if_pos hc]
    have harg : o * ((2 : ℝ) ^ bd - 1) * (Real.exp 1 * 0.001) /
        ((2 : ℝ) ^ bd - 1) = o * (Real.exp 1 * 0.001) := by
      field_simp
      ring
    rw [harg]
  · rw [if_neg (show ¬(o * ((2 : ℝ) ^ bd - 1) ≤ ((2 : ℝ) ^ bd - 1) *
        ((Real.log (Real.exp 1 * 0.001) - Real.log 0.001) /
          (Real.log 316.2 - Real.log 0.001))) by
        push_neg at hc ⊢
        nlinarith), if_neg hc]
    rw [mul_div_cancel_right₀ o (ne_of_gt hI)]

theorem erimm_float_roundtrip (bd : ℕ) (X : ℝ) (hbd : 1 ≤ bd)
    (h0 : 0 ≤ X) :
    log_decoding_ERIMMRGB (log_encoding_ERIMMRGB X bd false 0.001 316.2)
      bd false 0.001 316.2 = X := by
  have hI : (0 : ℝ) < (2 : ℝ) ^ bd - 1 := pow_bd_pos hbd
  have hEt : (0 : ℝ) < Real.exp 1 * 0.001 := by positivity
  have hD : (0 : ℝ) < Real.log 316.2 - Real.log 0.001 := by
    have := Real.log_lt_log (show (0 : ℝ) < 0.001 by norm_num)
      (show (0.001 : ℝ) < 316.2 by norm_num)
    linarith
  have hlt1 : Real.log (Real.exp 1 * 0.001) - Real.log 0.001 = 1 := by
    rw [Real.log_mul (Real.exp_ne_zero 1) (by norm_num), Real.log_exp]
    ring
  rw [erimm_encode_eval bd X hI h0, erimm_decode_eval bd _ hI]
  rcases le_or_lt X (Real.exp 1 * 0.001) with hx | hx
  · rw [if_pos hx]
    rw [if_pos (by
      rw [hlt1]
      rw [mul_div_assoc]
      exact mul_le_of_le_one_right (le_of_lt (div_pos one_pos hD))
        ((div_le_one hEt).mpr hx))]
    rw [hlt1]
    field_simp
    ring
  · have hXpos : (0 : ℝ) < X := lt_trans hEt hx
    have hln : Real.log (Real.exp 1 * 0.001) < Real.log X :=
      Real.log_lt_log hEt hx
    rw [if_neg (not_le.mpr hx)]
    rw [if_neg (not_le.mpr ((div_lt_div_right hD).mpr (by linarith)))]
    have harg : (Real.log X - Real.log 0.001) /
        (Real.log 316.2 - Real.log 0.001) *
        (Real.log 316.2 - Real.log 0.001) + Real.log 0.001 = Real.log X := by
      field_simp
    rw [harg, Real.exp_log hXpos]

theorem romm_half_pow_bounds :
    (0.680393 : ℝ) < ((1 : ℝ) / 2) ^ ((1 : ℝ) / 1.8) ∧
    ((1 : ℝ) / 2) ^ ((1 : ℝ) / 1.8) < (0.680396 : ℝ) := by
  have hc9 : (((1 : ℝ) / 2) ^ ((1 : ℝ) / 1.8)) ^ (9 : ℕ) = 1 / 32 := by
    rw [← Real.rpow_natCast (((1 : ℝ) / 2) ^ ((1 : ℝ) / 1.8)) 9,
      ← Real.rpow_mul (by norm_num : (0 : ℝ) ≤ 1 / 2),
      show (1 : ℝ) / 1.8 * ((9 : ℕ) : ℝ) = ((5 : ℕ) : ℝ) by norm_num,
      Real.rpow_natCast]
    norm_num
  constructor
  · apply lt_of_pow_lt_pow_left 9 (Real.rpow_nonneg (by norm_num) _)
    rw [hc9]
    norm_num
  · apply lt_of_pow_lt_pow_left 9 (by norm_num : (0 : ℝ) ≤ (0.680396 : ℝ))
    rw [hc9]
    norm_num

theorem romm_encode_half_int : cctf_encoding_ROMMRGB (1 / 2) 8 true = 174 := by
  obtain ⟨hl, hu⟩ := romm_half_pow_bounds
  simp only [cctf_encoding_ROMMRGB, romm_Et_eq]
  rw [if_neg (by norm_num : ¬((1 : ℝ) / 2 < 1 / 512)),
    spow_of_pos (by norm_num : (0 : ℝ) < 1 / 2), if_pos trivial]
  rw [npRound_eq_of_bounds
    (show ((174 : ℤ) : ℝ) <
        ((1 : ℝ) / 2) ^ ((1 : ℝ) / 1.8) * ((2 : ℝ) ^ (8 : ℕ) - 1) + 1 / 2 by
      push_cast
      nlinarith)
    (show ((1 : ℝ) / 2) ^ ((1 : ℝ) / 1.8) * ((2 : ℝ) ^ (8 : ℕ) - 1) + 1 / 2 <
        ((174 : ℤ) : ℝ) + 1 by
      push_cast
      nlinarith)]
  norm_num

/-- C2 counterexample: the integer-code-value round trip is not within
1e-6 — at bit depth 8 the ROMM encoding of 0.5 is the code value 174,
which decodes to about 0.50259, an error of about 2.6e-3. -/
theorem romm_int_roundtrip_error :
    1 / 1000000 <
      |cctf_decoding_ROMMRGB (cctf_encoding_ROMMRGB (1 / 2) 8 true) 8 true
        - 1 / 2| := by
  rw [romm_encode_half_int]
  have hdec : cctf_decoding_ROMMRGB 174 8 true =
      ((174 : ℝ) / ((2 : ℝ) ^ (8 : ℕ) - 1)) ^ (1.8 : ℝ) := by
    simp only [cctf_decoding_ROMMRGB, romm_Et_eq]
    rw [if_pos trivial, if_neg (by norm_num),
      spow_of_pos (by norm_num : (0 : ℝ) < 174 / ((2 : ℝ) ^ (8 : ℕ) - 1))]
  have ht5 : ((((174 : ℝ) / ((2 : ℝ) ^ (8 : ℕ) - 1)) ^ (1.8 : ℝ))) ^ (5 : ℕ) =
      ((174 : ℝ) / ((2 : ℝ) ^ (8 : ℕ) - 1)) ^ (9 : ℕ) := by
    rw [← Real.rpow_natCast
        (((174 : ℝ) / ((2 : ℝ) ^ (8 : ℕ) - 1)) ^ (1.8 : ℝ)) 5,
      ← Real.rpow_mul (by norm_num : (0 : ℝ) ≤ 174 / ((2 : ℝ) ^ (8 : ℕ) - 1)),
      show (1.8 : ℝ) * ((5 : ℕ) : ℝ) = ((9 : ℕ) : ℝ) by norm_num,
      Real.rpow_natCast]
  have hl2 : (0.5025 : ℝ) <
      ((174 : ℝ) / ((2 : ℝ) ^ (8 : ℕ) - 1)) ^ (1.8 : ℝ) := by
    apply lt_of_pow_lt_pow_left 5 (Real.rpow_nonneg (by norm_num) _)
    rw [ht5]
    norm_num
  rw [hdec, abs_of_pos (by linarith)]
  linarith

/-- C2 (amended): in float mode the decode-encode round trip is EXACT
for each of the ROMM, RIMM and ERIMM pairs, for every input in [0, 1]
and every bit depth at least 1 (RIMM/ERIMM clip parameters at their
defaults). In integer-code-value mode the round trip is NOT within the
claimed 1e-6 tolerance: quantising to the code range introduces errors
up to about half a code value (see the counterexample, error about
2.6e-3 at bit depth 8). -/
theorem float_roundtrip_exact :
    ∀ (bd : ℕ) (X : ℝ), 1 ≤ bd → 0 ≤ X → X ≤ 1 →
      cctf_decoding_ROMMRGB (cctf_encoding_ROMMRGB X bd false) bd false =
        X ∧
      cctf_decoding_RIMMRGB (cctf_encoding_RIMMRGB X bd false 2)
        bd false 2 = X ∧
      log_decoding_ERIMMRGB
        (log_encoding_ERIMMRGB X bd false 0.001 316.2) bd false 0.001
        316.2 = X :=
  fun bd X hbd h0 _ =>
    ⟨romm_float_roundtrip bd X hbd h0, rimm_float_roundtrip bd X hbd h0,
     erimm_float_roundtrip bd X hbd h0⟩

/-- Witness for the float-mode exactness theorem at `X = 1/2`,
bit depth 8. -/
theorem float_roundtrip_exact_witness :
    cctf_decoding_ROMMRGB (cctf_encoding_ROMMRGB (1 / 2) 8 false) 8 false =
      1 / 2 ∧
    cctf_decoding_RIMMRGB (cctf_encoding_RIMMRGB (1 / 2) 8 false 2)
      8 false 2 = 1 / 2 ∧
    log_decoding_ERIMMRGB
      (log_encoding_ERIMMRGB (1 / 2) 8 false 0.001 316.2) 8 false 0.001
      316.2 = 1 / 2 :=
  float_roundtrip_exact 8 (1 / 2) (by norm_num) (by norm_num) (by norm_num)

/-! ## Concrete encoder values at X = 0.18 -/

theorem romm_018_pow_bounds :
    (0.38571142 : ℝ) < (0.18 : ℝ) ^ ((1 : ℝ) / 1.8) ∧
    (0.18 : ℝ) ^ ((1 : ℝ) / 1.8) < (0.38571143 : ℝ) := by
  have hc9 : ((0.18 : ℝ) ^ ((1 : ℝ) / 1.8)) ^ (9 : ℕ) =
      (0.18 : ℝ) ^ (5 : ℕ) := by
    rw [← Real.rpow_natCast ((0.18 : ℝ) ^ ((1 : ℝ) / 1.8)) 9,
      ← Real.rpow_mul (by norm_num : (0 : ℝ) ≤ 0.18),
      show (1 : ℝ) / 1.8 * ((9 : ℕ) : ℝ) = ((5 : ℕ) : ℝ) by norm_num,
      Real.rpow_natCast]
  constructor
  · apply lt_of_pow_lt_pow_left 9 (Real.rpow_nonneg (by norm_num) _)
    rw [hc9]
    norm_num
  · apply lt_of_pow_lt_pow_left 9 (by norm_num : (0 : ℝ) ≤ (0.38571143 : ℝ))
    rw [hc9]
    norm_num

theorem rimm_018_pow_bounds :
    (0.46224542 : ℝ) < (0.18 : ℝ) ^ (0.45 : ℝ) ∧
    (0.18 : ℝ) ^ (0.45 : ℝ) < (0.46224544 : ℝ) := by
  have hc20 : ((0.18 : ℝ) ^ (0.45 : ℝ)) ^ (20 : ℕ) =
      (0.18 : ℝ) ^ (9 : ℕ) := by
    rw [← Real.rpow_natCast ((0.18 : ℝ) ^ (0.45 : ℝ)) 20,
      ← Real.rpow_mul (by norm_num : (0 : ℝ) ≤ 0.18),
      show (0.45 : ℝ) * ((20 : ℕ) : ℝ) = ((9 : ℕ) : ℝ) by norm_num,
      Real.rpow_natCast]
  constructor
  · apply lt_of_pow_lt_pow_left 20 (Real.rpow_nonneg (by norm_num) _)
    rw [hc20]
    norm_num
  · apply lt_of_pow_lt_pow_left 20 (by norm_num : (0 : ℝ) ≤ (0.46224544 : ℝ))
    rw [hc20]
    norm_num

theorem rimm_2_pow_bounds :
    (1.36604025 : ℝ) < (2 : ℝ) ^ (0.45 : ℝ) ∧
    (2 : ℝ) ^ (0.45 : ℝ) < (1.36604026 : ℝ) := by
  have hc20 : ((2 : ℝ) ^ (0.45 : ℝ)) ^ (20 : ℕ) = (2 : ℝ) ^ (9 : ℕ) := by
    rw [← Real.rpow_natCast ((2 : ℝ) ^ (0.45 : ℝ)) 20,
      ← Real.rpow_mul (by norm_num : (0 : ℝ) ≤ 2),
      show (0.45 : ℝ) * ((20 : ℕ) : ℝ) = ((9 : ℕ) : ℝ) by norm_num,
      Real.rpow_natCast]
  constructor
  · apply lt_of_pow_lt_pow_left 20 (Real.rpow_nonneg (by norm_num) _)
    rw [hc20]
    norm_num
  · apply lt_of_pow_lt_pow_left 20 (by norm_num : (0 : ℝ) ≤ (1.36604026 : ℝ))
    rw [hc20]
    norm_num

theorem rimm_018_val_bounds :
    (0.2916737 : ℝ) < (1.099 * (0.18 : ℝ) ^ (0.45 : ℝ) - 0.099) /
      (1.099 * (2 : ℝ) ^ (0.45 : ℝ) - 0.099) ∧
    (1.099 * (0.18 : ℝ) ^ (0.45 : ℝ) - 0.099) /
      (1.099 * (2 : ℝ) ^ (0.45 : ℝ) - 0.099) < (0.2916739 : ℝ) := by
  obtain ⟨la, ua⟩ := rimm_018_pow_bounds
  obtain ⟨lb, ub⟩ := rimm_2_pow_bounds
  have hVr : (0 : ℝ) < 1.099 * (2 : ℝ) ^ (0.45 : ℝ) - 0.099 := by nlinarith
  constructor
  · rw [lt_div_iff hVr]
    nlinarith
  · rw [div_lt_iff hVr]
    nlinarith

theorem log180_eq :
    2 * Real.log 180 = 15 * Real.log 2 + Real.log (1 - 23 / 2048) := by
  have h : ((180 : ℝ)) ^ (2 : ℕ) = 2 ^ (15 : ℕ) * (1 - 23 / 2048) := by
    norm_num
  have hl := congrArg Real.log h
  rw [Real.log_pow, Real.log_mul (by norm_num) (by norm_num),
    Real.log_pow] at hl
  push_cast at hl
  linarith

theorem log_one_sub_x1_bounds :
    -(0.011294007 : ℝ) < Real.log (1 - 23 / 2048) ∧
    Real.log (1 - 23 / 2048) < -(0.011294006 : ℝ) := by
  have hx : |(23 / 2048 : ℝ)| < 1 := by
    rw [abs_of_pos (by norm_num)]
    norm_num
  have hs := Real.abs_log_sub_add_sum_range_le hx 4
  rw [abs_le] at hs
  have hb : |(23 / 2048 : ℝ)| ^ (4 + 1) / (1 - |(23 / 2048 : ℝ)|) ≤
      2 / 10 ^ 10 := by
    rw [abs_of_pos (by norm_num)]
    norm_num
  have hS1 : (∑ i ∈ Finset.range 4, (23 / 2048 : ℝ) ^ (i + 1) / (i + 1)) <
      (0.0112940066 : ℝ) ∧ (0.0112940065 : ℝ) <
      (∑ i ∈ Finset.range 4, (23 / 2048 : ℝ) ^ (i + 1) / (i + 1)) := by
    constructor <;>
      · simp only [Finset.sum_range_succ, Finset.sum_range_zero]
        norm_num
  constructor
  · linarith [hs.1, hb, hS1.1]
  · linarith [hs.2, hb, hS1.2]

theorem ln180_bounds :
    (5.1929568487 : ℝ) < Real.log 180 ∧
    Real.log 180 < (5.1929568531 : ℝ) := by
  have h2l := Real.log_two_gt_d9
  have h2u := Real.log_two_lt_d9
  have heq := log180_eq
  have hb := log_one_sub_x1_bounds
  constructor
  · linarith [hb.1]
  · linarith [hb.2]

theorem log316200_eq :
    4 * Real.log 316200 = 73 * Real.log 2 +
      Real.log (1 - (-134705894192946673 / 2305843009213693952)) := by
  have h : ((316200 : ℝ)) ^ (4 : ℕ) =
      2 ^ (73 : ℕ) * (1 - (-134705894192946673 / 2305843009213693952)) := by
    norm_num
  have hl := congrArg Real.log h
  rw [Real.log_pow, Real.log_mul (by norm_num) (by norm_num),
    Real.log_pow] at hl
  push_cast at hl
  linarith

theorem log_one_sub_x2_bounds :
    (0.0567766341 : ℝ) <
      Real.log (1 - (-134705894192946673 / 2305843009213693952)) ∧
    Real.log (1 - (-134705894192946673 / 2305843009213693952)) <
      (0.0567766342 : ℝ) := by
  have hx : |(-134705894192946673 / 2305843009213693952 : ℝ)| < 1 := by
    rw [abs_of_neg (by norm_num)]
    norm_num
  have hs := Real.abs_log_sub_add_sum_range_le hx 9
  rw [abs_le] at hs
  have hb : |(-134705894192946673 / 2305843009213693952 : ℝ)| ^ (9 + 1) /
      (1 - |(-134705894192946673 / 2305843009213693952 : ℝ)|) ≤
      1 / 10 ^ 12 := by
    rw [abs_of_neg (by norm_num)]
    norm_num
  have hS2 : (∑ i ∈ Finset.range 9,
      (-134705894192946673 / 2305843009213693952 : ℝ) ^ (i + 1) / (i + 1)) <
      -(0.05677663415 : ℝ) ∧ -(0.05677663416 : ℝ) <
      (∑ i ∈ Finset.range 9,
        (-134705894192946673 / 2305843009213693952 : ℝ) ^ (i + 1) /
          (i + 1)) := by
    constructor <;>
      · simp only [Finset.sum_range_succ, Finset.sum_range_zero]
        norm_num
  constructor
  · linarith [hs.1, hb, hS2.1]
  · linarith [hs.2, hb, hS2.2]

theorem ln316200_bounds :
    (12.6641301985 : ℝ) < Real.log 316200 ∧
    Real.log 316200 < (12.6641302095 : ℝ) := by
  have h2l := Real.log_two_gt_d9
  have h2u := Real.log_two_lt_d9
  have heq := log316200_eq
  have hb := log_one_sub_x2_bounds
  constructor
  · linarith [hb.1]
  · linarith [hb.2]

theorem romm_018_float_eq : cctf_encoding_ROMMRGB 0.18 8 false =
    (0.18 : ℝ) ^ ((1 : ℝ) / 1.8) := by
  have hI : (0 : ℝ) < (2 : ℝ) ^ (8 : ℕ) - 1 := by norm_num
  simp only [cctf_encoding_ROMMRGB, romm_Et_eq]
  rw [if_neg (by norm_num : ¬((0.18 : ℝ) < 1 / 512)),
    spow_of_pos (by norm_num : (0 : ℝ) < 0.18),
    if_neg (by simp : ¬((false : Bool) = true)),
    mul_div_cancel_right₀ _ (ne_of_gt hI)]

theorem romm_018_int_eq : cctf_encoding_ROMMRGB 0.18 8 true = 98 := by
  obtain ⟨rl, ru⟩ := romm_018_pow_bounds
  simp only [cctf_encoding_ROMMRGB, romm_Et_eq]
  rw [if_neg (by norm_num : ¬((0.18 : ℝ) < 1 / 512)),
    spow_of_pos (by norm_num : (0 : ℝ) < 0.18), if_pos trivial]
  rw [npRound_eq_of_bounds
    (show ((98 : ℤ) : ℝ) <
        (0.18 : ℝ) ^ ((1 : ℝ) / 1.8) * ((2 : ℝ) ^ (8 : ℕ) - 1) + 1 / 2 by
      push_cast
      nlinarith)
    (show (0.18 : ℝ) ^ ((1 : ℝ) / 1.8) * ((2 : ℝ) ^ (8 : ℕ) - 1) + 1 / 2 <
        ((98 : ℤ) : ℝ) + 1 by
      push_cast
      nlinarith)]
  norm_num

theorem rimm_018_float_eq : cctf_encoding_RIMMRGB 0.18 8 false 2 =
    (1.099 * (0.18 : ℝ) ^ (0.45 : ℝ) - 0.099) /
      (1.099 * (2 : ℝ) ^ (0.45 : ℝ) - 0.099) := by
  have hI : (0 : ℝ) < (2 : ℝ) ^ (8 : ℕ) - 1 := by norm_num
  rw [rimm_encode_eval 8 0.18 hI (by norm_num),
    if_neg (by norm_num : ¬((0.18 : ℝ) < 0.018)),
    spow_of_pos (by norm_num : (0 : ℝ) < 0.18),
    spow_of_pos (by norm_num : (0 : ℝ) < 2)]

theorem rimm_018_int_eq : cctf_encoding_RIMMRGB 0.18 8 true 2 = 74 := by
  obtain ⟨vl, vu⟩ := rimm_018_val_bounds
  simp only [cctf_encoding_RIMMRGB]
  rw [if_neg (by norm_num : ¬((0.18 : ℝ) < 0.0)),
    if_neg (by norm_num : ¬((0.18 : ℝ) < 0.018)),
    if_pos (by norm_num : (0.18 : ℝ) ≥ 0.018),
    spow_of_pos (by norm_num : (0 : ℝ) < 0.18),
    spow_of_pos (by norm_num : (0 : ℝ) < 2),
    if_pos trivial]
  rw [div_mul_eq_mul_div, mul_div_assoc]
  rw [npRound_eq_of_bounds
    (show ((74 : ℤ) : ℝ) < ((2 : ℝ) ^ (8 : ℕ) - 1) *
        ((1.099 * (0.18 : ℝ) ^ (0.45 : ℝ) - 0.099) /
          (1.099 * (2 : ℝ) ^ (0.45 : ℝ) - 0.099)) + 1 / 2 by
      push_cast
      nlinarith)
    (show ((2 : ℝ) ^ (8 : ℕ) - 1) *
        ((1.099 * (0.18 : ℝ) ^ (0.45 : ℝ) - 0.099) /
          (1.099 * (2 : ℝ) ^ (0.45 : ℝ) - 0.099)) + 1 / 2 <
        ((74 : ℤ) : ℝ) + 1 by
      push_cast
      nlinarith)]
  norm_num

theorem erimm_018_Et : Real.exp 1 * 0.001 < 0.18 := by
  have := Real.exp_one_lt_d9
  nlinarith

theorem log_018_sub : Real.log 0.18 - Real.log 0.001 = Real.log 180 := by
  rw [← Real.log_div (by norm_num) (by norm_num)]
  norm_num

theorem log_3162_sub : Real.log 316.2 - Real.log 0.001 = Real.log 316200 := by
  rw [← Real.log_div (by norm_num) (by norm_num)]
  norm_num

theorem erimm_018_float_eq : log_encoding_ERIMMRGB 0.18 8 false 0.001 316.2 =
    Real.log 180 / Real.log 316200 := by
  have hI : (0 : ℝ) < (2 : ℝ) ^ (8 : ℕ) - 1 := by norm_num
  rw [erimm_encode_eval 8 0.18 hI (by norm_num),
    if_neg (not_le.mpr erimm_018_Et), log_018_sub, log_3162_sub]

theorem erimm_018_ratio_bounds :
    (0.4100522 : ℝ) < Real.log 180 / Real.log 316200 ∧
    Real.log 180 / Real.log 316200 < (0.4100524 : ℝ) := by
  obtain ⟨Al, Au⟩ := ln180_bounds
  obtain ⟨Bl, Bu⟩ := ln316200_bounds
  have hBpos : (0 : ℝ) < Real.log 316200 := by linarith
  constructor
  · rw [lt_div_iff hBpos]
    nlinarith
  · rw [div_lt_iff hBpos]
    nlinarith

theorem erimm_018_int_eq :
    log_encoding_ERIMMRGB 0.18 8 true 0.001 316.2 = 105 := by
  obtain ⟨hlo, hhi⟩ := erimm_018_ratio_bounds
  simp only [log_encoding_ERIMMRGB]
  rw [if_neg (by norm_num : ¬((0.18 : ℝ) < 0.0)),
    if_neg (not_le.mpr erimm_018_Et),
    if_pos (show (0.18 : ℝ) > Real.exp 1 * 0.001 from erimm_018_Et),
    if_pos trivial, log_018_sub, log_3162_sub]
  rw [npRound_eq_of_bounds
    (show ((105 : ℤ) : ℝ) < ((2 : ℝ) ^ (8 : ℕ) - 1) *
        (Real.log 180 / Real.log 316200) + 1 / 2 by
      push_cast
      nlinarith)
    (show ((2 : ℝ) ^ (8 : ℕ) - 1) *
        (Real.log 180 / Real.log 316200) + 1 / 2 < ((105 : ℤ) : ℝ) + 1 by
      push_cast
      nlinarith)]
  norm_num

/-- C6: the concrete encoder values at `X = 0.18`, default bit depth 8:
ROMM is about 0.3857114 in float mode and exactly the code value 98 in
integer mode; RIMM about 0.2916738 and 74; ERIMM about 0.4100523 and
105 (each float value within 1e-7 of the quoted constant). -/
theorem encode_018_values :
    |cctf_encoding_ROMMRGB 0.18 8 false - 0.3857114| < 1 / 10 ^ 7 ∧
    cctf_encoding_ROMMRGB 0.18 8 true = 98 ∧
    |cctf_encoding_RIMMRGB 0.18 8 false 2 - 0.2916738| < 1 / 10 ^ 7 ∧
    cctf_encoding_RIMMRGB 0.18 8 true 2 = 74 ∧
    |log_encoding_ERIMMRGB 0.18 8 false 0.001 316.2 - 0.4100523| <
      1 / 10 ^ 7 ∧
    log_encoding_ERIMMRGB 0.18 8 true 0.001 316.2 = 105 := by
  obtain ⟨rl, ru⟩ := romm_018_pow_bounds
  obtain ⟨vl, vu⟩ := rimm_018_val_bounds
  obtain ⟨elo, ehi⟩ := erimm_018_ratio_bounds
  refine ⟨?_, romm_018_int_eq, ?_, rimm_018_int_eq, ?_, erimm_018_int_eq⟩
  · rw [romm_018_float_eq, abs_lt]
    constructor <;> linarith
  · rw [rimm_018_float_eq, abs_lt]
    constructor <;> linarith
  · rw [erimm_018_float_eq, abs_lt]
    constructor <;> linarith

/-- Witness for the nonpositive-input clamp theorem at `X = -1`. -/
theorem encode_nonpositive_clamp_witness :
    cctf_encoding_RIMMRGB (-1) 8 false 2 = 0 ∧
    log_encoding_ERIMMRGB (-1) 8 false 0.001 316.2 = 0 ∧
    cctf_encoding_ROMMRGB (-1) 8 false = 16 * (-1) :=
  ⟨encode_nonpositive_clamp.1 (-1) 8 false (by norm_num),
   encode_nonpositive_clamp.2.1 (-1) 8 false (by norm_num),
   (encode_nonpositive_clamp.2.2 (-1) 8 (by norm_num) (by norm_num)).1⟩

end Colour
